import Mathlib

/-!
# Storage Market Actor (chain/actors/actor_storagemarket.go)

A shallow embedding of the Storage Market Actor and of the interface it is
written against (the VM context: message, versioned store, inter-actor send),
followed by the sealing facade of the miner (storage/sealing.go).

The handlers are programs over the VM-context interface (`Prog`); `run`
executes a program against any implementation of that interface, threading the
world state and recording every store and send operation the handler performs.
The handlers' first argument `act *types.Actor` is not read by any of them and
is left out.
-/

namespace Lotus

/-- Raw byte strings (`[]byte`); a nil slice and an empty slice are both `[]`. -/
abbrev Bytes := List UInt8

/-- The type `types.BigInt` wraps Go's `*big.Int`, an arbitrary-precision signed integer. -/
abbrev BigInt := Int

/-- The method `Uint64` of `big.Int`: the low 64 bits of the absolute value. -/
def BigInt.Uint64 (x : BigInt) : Nat := x.natAbs % 2 ^ 64

/-- The function `types.BigAdd`. -/
def BigAdd (a b : BigInt) : BigInt := a + b

/-- The function `types.NewInt`, from a `uint64`. -/
def NewInt (n : Nat) : BigInt := Int.ofNat (n % 2 ^ 64)

/-- The constant `SectorSize = 1024`. -/
def SectorSize : Nat := 1024

/-- The struct `types.InvokeRet`; its zero value `InvokeRet{}` has an empty result and code 0. -/
structure InvokeRet where
  Result : Bytes
  ReturnCode : Nat
deriving DecidableEq

/-- The zero value `types.InvokeRet{}`. -/
def InvokeRet.zero : InvokeRet := ⟨[], 0⟩

/-- The struct `StorageMarketState`: `Miners` is a Go map used as a set. -/
structure StorageMarketState (Address : Type) where
  Miners : Finset Address
  TotalStorage : BigInt
deriving DecidableEq

/-- The struct `CreateStorageMinerParams`; `peer.ID` is a Go string type. -/
structure CreateStorageMinerParams (Address : Type) where
  Owner : Address
  Worker : Address
  SectorSize : BigInt
  PeerID : String
deriving DecidableEq

/-- The struct `StorageMinerConstructorParams` built by `CreateStorageMiner`. -/
structure StorageMinerConstructorParams (Address : Type) where
  Owner : Address
  Worker : Address
  SectorSize : BigInt
  PeerID : String
deriving DecidableEq

/-- The struct `UpdateStorageParams`. -/
structure UpdateStorageParams where
  Delta : BigInt
deriving DecidableEq

/-- The struct `PowerLookupParams`. -/
structure PowerLookupParams (Address : Type) where
  Miner : Address
deriving DecidableEq

/-- The struct `IsMinerParam`. -/
structure IsMinerParam (Address : Type) where
  Addr : Address
deriving DecidableEq

/-- The fields of `types.Message` that the actor reads. -/
structure Message (Address : Type) where
  From : Address
  Value : BigInt

/-- What `vmctx.Send` returns: `(resultBytes, exitCode, err)`. -/
structure SendRet where
  ret : Bytes
  exit : Nat
  err : Option String
deriving DecidableEq

/-- Library values the actor uses whose code is not part of the modelled file:
the constants `InitActorAddress`, `StorageMinerCodeCid`, `EmptyStructCBOR` and the
functions `CreateExecParams`, `SerializeParams` (at `bool`), `address.NewFromBytes`,
`Address.Bytes` and `BigInt.Bytes`. They are parameters of the development. -/
structure Lib (Address Cid : Type) where
  InitActorAddress : Address
  StorageMinerCodeCid : Cid
  EmptyStructCBOR : Bytes
  CreateExecParams : Cid → StorageMinerConstructorParams Address → Except String Bytes
  SerializeParams : Bool → Except String Bytes
  NewFromBytes : Bytes → Except String Address
  AddressBytes : Address → Bytes
  BigIntBytes : BigInt → Bytes

/-- The interface `types.VMContext` as the actor uses it, over a world state `W`:
`Message()`, `Storage().GetHead/Get/Put/Commit` and `Send`. `GetHead` and `Get`
read the world; `Put`, `Commit` and `Send` may change it. -/
structure VMContext (W Address Cid : Type) where
  Message : Message Address
  GetHead : W → Cid
  Get : W → Cid → Except String (StorageMarketState Address)
  Put : W → StorageMarketState Address → Except String Cid × W
  Commit : W → Cid → Cid → Option String × W
  Send : W → Address → Nat → BigInt → Bytes → SendRet × W

/-- One operation performed on the VM context by a handler. -/
inductive Effect (Address Cid : Type) where
  | getHead
  | get (c : Cid)
  | put (s : StorageMarketState Address)
  | commit (old new : Cid)
  | send (dest : Address) (method : Nat) (value : BigInt) (params : Bytes)
deriving DecidableEq

/-- Whether the operation is a `Send`. -/
def Effect.isSend {Address Cid : Type} : Effect Address Cid → Bool
  | .send _ _ _ _ => true
  | _ => false

/-- Whether the operation is a `Get`. -/
def Effect.isGet {Address Cid : Type} : Effect Address Cid → Bool
  | .get _ => true
  | _ => false

/-- Whether the operation is a `Put`. -/
def Effect.isPut {Address Cid : Type} : Effect Address Cid → Bool
  | .put _ => true
  | _ => false

/-- Whether the operation is a `Commit`. -/
def Effect.isCommit {Address Cid : Type} : Effect Address Cid → Bool
  | .commit _ _ => true
  | _ => false

/-- A handler body: a program over the VM-context interface. Each constructor is
one call on `vmctx`, continued with its result. -/
inductive Prog (Address Cid α : Type) where
  | done (a : α)
  | message (k : Message Address → Prog Address Cid α)
  | getHead (k : Cid → Prog Address Cid α)
  | get (c : Cid) (k : Except String (StorageMarketState Address) → Prog Address Cid α)
  | put (s : StorageMarketState Address) (k : Except String Cid → Prog Address Cid α)
  | commit (old new : Cid) (k : Option String → Prog Address Cid α)
  | send (dest : Address) (method : Nat) (value : BigInt) (params : Bytes)
      (k : SendRet → Prog Address Cid α)

/-- The outcome of running a handler: its return value, the world it leaves and
the store and send operations it performed, in order. -/
structure Run (W Address Cid α : Type) where
  ret : α
  world : W
  trace : List (Effect Address Cid)

/-- Execute a handler body against a VM context from world `w`. -/
def run {W Address Cid α : Type} (vmctx : VMContext W Address Cid) :
    Prog Address Cid α → W → Run W Address Cid α
  | .done a, w => ⟨a, w, []⟩
  | .message k, w => run vmctx (k vmctx.Message) w
  | .getHead k, w =>
      let r := run vmctx (k (vmctx.GetHead w)) w
      ⟨r.ret, r.world, Effect.getHead :: r.trace⟩
  | .get c k, w =>
      let r := run vmctx (k (vmctx.Get w c)) w
      ⟨r.ret, r.world, Effect.get c :: r.trace⟩
  | .put s k, w =>
      let r := run vmctx (k (vmctx.Put w s).1) (vmctx.Put w s).2
      ⟨r.ret, r.world, Effect.put s :: r.trace⟩
  | .commit old new k, w =>
      let r := run vmctx (k (vmctx.Commit w old new).1) (vmctx.Commit w old new).2
      ⟨r.ret, r.world, Effect.commit old new :: r.trace⟩
  | .send dest method value params k, w =>
      let r := run vmctx (k (vmctx.Send w dest method value params).1)
        (vmctx.Send w dest method value params).2
      ⟨r.ret, r.world, Effect.send dest method value params :: r.trace⟩

/-- What a Go handler returns: `(types.InvokeRet, error)`. -/
abbrev Ret := InvokeRet × Option String

/-- The function `SupportedSectorSize`. -/
def SupportedSectorSize (ssize : BigInt) : Bool :=
  if ssize.Uint64 = SectorSize then true else false

section Actor

variable {Address Cid : Type} [DecidableEq Address]

/-- The method `StorageMarketActor.CreateStorageMiner`. -/
def StorageMarketActor.CreateStorageMiner (lib : Lib Address Cid)
    (params : CreateStorageMinerParams Address) : Prog Address Cid Ret :=
  if !SupportedSectorSize params.SectorSize then
    .done (⟨[], 1⟩, none)
  else
    match lib.CreateExecParams lib.StorageMinerCodeCid
        ⟨params.Owner, params.Worker, params.SectorSize, params.PeerID⟩ with
    | .error err => .done (InvokeRet.zero, some err)
    | .ok encoded =>
      .message fun msg =>
      .send lib.InitActorAddress 1 msg.Value encoded fun r =>
        match r.err with
        | some err => .done (InvokeRet.zero, some err)
        | none =>
          if r.exit ≠ 0 then
            .done (⟨[], 2⟩, none)
          else
            match lib.NewFromBytes r.ret with
            | .error err => .done (InvokeRet.zero, some err)
            | .ok naddr =>
              .getHead fun old =>
              .get old fun g =>
                match g with
                | .error err => .done (InvokeRet.zero, some err)
                | .ok self =>
                  .put ⟨insert naddr self.Miners, self.TotalStorage⟩ fun p =>
                    match p with
                    | .error err => .done (InvokeRet.zero, some err)
                    | .ok nroot =>
                      .commit old nroot fun c =>
                        match c with
                        | some err => .done (InvokeRet.zero, some err)
                        | none => .done (⟨lib.AddressBytes naddr, 0⟩, none)

/-- The method `StorageMarketActor.UpdateStorage`. The sum assigned to the local
`self.TotalStorage` is not used after the assignment. -/
def StorageMarketActor.UpdateStorage (_lib : Lib Address Cid)
    (params : UpdateStorageParams) : Prog Address Cid Ret :=
  .getHead fun head =>
  .get head fun g =>
    match g with
    | .error err => .done (InvokeRet.zero, some err)
    | .ok self =>
      .message fun msg =>
        if msg.From ∉ self.Miners then
          .done (⟨[], 1⟩, none)
        else
          let _self : StorageMarketState Address :=
            ⟨self.Miners, BigAdd self.TotalStorage params.Delta⟩
          .done (InvokeRet.zero, none)

/-- The method `StorageMarketActor.GetTotalStorage`. -/
def StorageMarketActor.GetTotalStorage (lib : Lib Address Cid) : Prog Address Cid Ret :=
  .getHead fun head =>
  .get head fun g =>
    match g with
    | .error err => .done (InvokeRet.zero, some err)
    | .ok self => .done (⟨lib.BigIntBytes self.TotalStorage, 0⟩, none)

/-- The method `StorageMarketActor.PowerLookup`. -/
def StorageMarketActor.PowerLookup (lib : Lib Address Cid)
    (params : PowerLookupParams Address) : Prog Address Cid Ret :=
  .getHead fun head =>
  .get head fun g =>
    match g with
    | .error err => .done (InvokeRet.zero, some ("getting head: " ++ err))
    | .ok self =>
      if params.Miner ∉ self.Miners then
        .done (⟨[], 1⟩, none)
      else
        .send params.Miner 9 (NewInt 0) lib.EmptyStructCBOR fun r =>
          match r.err with
          | some err => .done (InvokeRet.zero, some ("invoke Miner.GetPower: " ++ err))
          | none =>
            if r.exit ≠ 0 then
              .done (⟨[], r.exit⟩, none)
            else
              .done (⟨r.ret, 0⟩, none)

/-- The method `StorageMarketActor.IsMiner`. -/
def StorageMarketActor.IsMiner (lib : Lib Address Cid)
    (param : IsMinerParam Address) : Prog Address Cid Ret :=
  .getHead fun head =>
  .get head fun g =>
    match g with
    | .error err => .done (InvokeRet.zero, some err)
    | .ok self =>
      match lib.SerializeParams (decide (param.Addr ∈ self.Miners)) with
      | .error err => .done (InvokeRet.zero, some err)
      | .ok out => .done (⟨out, 0⟩, none)

/-- A call to one of the five exported methods, with its decoded parameters. -/
inductive MethodCall (Address : Type) where
  | CreateStorageMiner (params : CreateStorageMinerParams Address)
  | UpdateStorage (params : UpdateStorageParams)
  | GetTotalStorage
  | PowerLookup (params : PowerLookupParams Address)
  | IsMiner (param : IsMinerParam Address)

/-- The handler body a call runs. -/
def StorageMarketActor.call (lib : Lib Address Cid) : MethodCall Address → Prog Address Cid Ret
  | .CreateStorageMiner params => StorageMarketActor.CreateStorageMiner lib params
  | .UpdateStorage params => StorageMarketActor.UpdateStorage lib params
  | .GetTotalStorage => StorageMarketActor.GetTotalStorage lib
  | .PowerLookup params => StorageMarketActor.PowerLookup lib params
  | .IsMiner param => StorageMarketActor.IsMiner lib param

end Actor

/-- The laws of the versioned store that the claims about a successful
`CreateStorageMiner` rely on: an object that was put is read back under the
digest `Put` returned, and a `Commit` that succeeds makes `new` the head and
keeps every stored object readable. -/
structure LawfulStore {W Address Cid : Type} (vmctx : VMContext W Address Cid) : Prop where
  get_put : ∀ w s c, (vmctx.Put w s).1 = .ok c → vmctx.Get (vmctx.Put w s).2 c = .ok s
  commit_head : ∀ w old new, (vmctx.Commit w old new).1 = none →
    vmctx.GetHead (vmctx.Commit w old new).2 = new
  commit_get : ∀ w old new c, (vmctx.Commit w old new).1 = none →
    vmctx.Get (vmctx.Commit w old new).2 c = vmctx.Get w c

/-! ## A concrete VM context -/

/-- Modelled from the spec: the versioned store of the VM context (section 4.2),
whose code is not part of the modelled file. Objects are interned under their
digest, `Get` fails on an absent digest, `Put` interns the value under its digest
and `Commit old new` advances the head to `new` and fails when `old` is not the
current head. -/
structure MemStore (Address Cid : Type) where
  head : Cid
  objects : List (Cid × StorageMarketState Address)

/-- The VM context over a `MemStore`, for a digest function, a causing message and
a `Send` that answers from a fixed table and leaves this store alone. -/
def MemStore.vmctx {Address Cid : Type} [DecidableEq Cid]
    (digest : StorageMarketState Address → Cid) (msg : Message Address)
    (answer : Address → Nat → BigInt → Bytes → SendRet) :
    VMContext (MemStore Address Cid) Address Cid where
  Message := msg
  GetHead w := w.head
  Get w c :=
    match w.objects.find? (fun e => decide (e.1 = c)) with
    | some e => .ok e.2
    | none => .error "not found"
  Put w s := (.ok (digest s), ⟨w.head, (digest s, s) :: w.objects⟩)
  Commit w old new :=
    if w.head = old then (none, ⟨new, w.objects⟩) else (some "head changed", w)
  Send w dest method value params := (answer dest method value params, w)

/-- A digest of states over numeric addresses: the pair of the characteristic
number of `Miners` and an encoding of the sign and size of `TotalStorage`. -/
def natDigest (s : StorageMarketState Nat) : Nat :=
  Nat.pair (s.Miners.sum fun a => 2 ^ a)
    (if 0 ≤ s.TotalStorage then 2 * s.TotalStorage.natAbs else 2 * s.TotalStorage.natAbs + 1)

/-- A store holding exactly the state `s`, with the head at its digest. -/
def MemStore.single (s : StorageMarketState Nat) : MemStore Nat Nat :=
  ⟨natDigest s, [(natDigest s, s)]⟩

/-- Library functions over numeric addresses: an address is one byte, the
encoders produce short fixed byte strings. -/
def natLib : Lib Nat Nat where
  InitActorAddress := 0
  StorageMinerCodeCid := 100
  EmptyStructCBOR := [0xa0]
  CreateExecParams := fun code p => .ok [UInt8.ofNat code, UInt8.ofNat p.Owner, UInt8.ofNat p.Worker]
  SerializeParams := fun b => .ok [if b then 0xf5 else 0xf4]
  NewFromBytes := fun bs =>
    match bs with
    | [b] => .ok b.toNat
    | _ => .error "invalid address length"
  AddressBytes := fun a => [UInt8.ofNat a]
  BigIntBytes := fun x => [UInt8.ofNat x.natAbs]

/-- The genesis state: no miners, zero total. -/
def genesis : StorageMarketState Nat := ⟨∅, 0⟩

/-- A state with the single registered miner `7` and zero total. -/
def oneMiner : StorageMarketState Nat := ⟨{7}, 0⟩

/-- A `Send` table: the Exec call (method 1) answers the new address `42`, every
other call answers the bytes of the string "7"; all with exit code 0. -/
def acceptingSend : Nat → Nat → BigInt → Bytes → SendRet :=
  fun _ method _ _ => if method = 1 then ⟨[42], 0, none⟩ else ⟨[55], 0, none⟩

/-- A `Send` table whose callee rejects every call with exit code 3. -/
def rejectingSend : Nat → Nat → BigInt → Bytes → SendRet :=
  fun _ _ _ _ => ⟨[], 3, none⟩

/-- The context of a message from `sender` carrying `value`, over `acceptingSend`. -/
def ctxFrom (sender : Nat) (value : BigInt) : VMContext (MemStore Nat Nat) Nat Nat :=
  MemStore.vmctx natDigest ⟨sender, value⟩ acceptingSend

/-- The context of a message from `sender` carrying `value`, over `rejectingSend`. -/
def ctxRejecting (sender : Nat) (value : BigInt) : VMContext (MemStore Nat Nat) Nat Nat :=
  MemStore.vmctx natDigest ⟨sender, value⟩ rejectingSend

/-! ## Sequences of calls -/

/-- The same store and `Send` under another causing message. -/
def VMContext.withMessage {W Address Cid : Type} (vmctx : VMContext W Address Cid)
    (msg : Lotus.Message Address) : VMContext W Address Cid :=
  ⟨msg, vmctx.GetHead, vmctx.Get, vmctx.Put, vmctx.Commit, vmctx.Send⟩

/-- The head of the store moves only by a `Commit` that succeeds: `Send`, `Put` and
a failing `Commit` leave it where it was. -/
structure HeadFrame {W Address Cid : Type} (vmctx : VMContext W Address Cid) : Prop where
  send_head : ∀ w dest method value params,
    vmctx.GetHead (vmctx.Send w dest method value params).2 = vmctx.GetHead w
  put_head : ∀ w s, vmctx.GetHead (vmctx.Put w s).2 = vmctx.GetHead w
  commit_fail_head : ∀ w old new, (vmctx.Commit w old new).1 ≠ none →
    vmctx.GetHead (vmctx.Commit w old new).2 = vmctx.GetHead w

/-- The objects of the store change only by `Put`, and only at the object put:
`Send` and a failing `Commit` leave every digest as it read before, and after
`Put w s` a digest reads as before or reads `s`. -/
structure ObjectFrame {W Address Cid : Type} (vmctx : VMContext W Address Cid) : Prop where
  send_get : ∀ w dest method value params c,
    vmctx.Get (vmctx.Send w dest method value params).2 c = vmctx.Get w c
  put_get : ∀ w s c,
    vmctx.Get (vmctx.Put w s).2 c = vmctx.Get w c ∨ vmctx.Get (vmctx.Put w s).2 c = .ok s
  commit_fail_get : ∀ w old new c, (vmctx.Commit w old new).1 ≠ none →
    vmctx.Get (vmctx.Commit w old new).2 c = vmctx.Get w c

section Sequences

variable {W Address Cid : Type} [DecidableEq Address]

/-- The Exec send of `CreateStorageMiner` from world `w` with encoded parameters. -/
def StorageMarketActor.execSend (lib : Lib Address Cid) (vmctx : VMContext W Address Cid)
    (w : W) (encoded : Bytes) : SendRet × W :=
  vmctx.Send w lib.InitActorAddress 1 vmctx.Message.Value encoded

/-- The addresses minted by one call run from world `w`: when the call is a
`CreateStorageMiner` whose first operation is a `Send` to the Initialization Actor,
method 1, and that send returned exit code 0 without error, the address parsed
from the returned bytes; nothing otherwise. -/
def StorageMarketActor.minted (lib : Lib Address Cid) (vmctx : VMContext W Address Cid)
    (c : MethodCall Address) (w : W) : Finset Address :=
  match c with
  | .CreateStorageMiner _ =>
    match (run vmctx (StorageMarketActor.call lib c) w).trace with
    | .send dest method value params :: _ =>
      if dest = lib.InitActorAddress ∧ method = 1 ∧
          (vmctx.Send w dest method value params).1.err = none ∧
          (vmctx.Send w dest method value params).1.exit = 0 then
        match lib.NewFromBytes (vmctx.Send w dest method value params).1.ret with
        | .ok a => {a}
        | .error _ => ∅
      else ∅
    | _ => ∅
  | _ => ∅

/-- Run a sequence of calls, each under its own message, from world `w`: the
world left by the last call and the addresses minted along the way. With
`rollback` set, a call that ends in a fault leaves the world it started from. -/
def StorageMarketActor.exec (lib : Lib Address Cid) (vmctx : VMContext W Address Cid)
    (rollback : Bool) : List (Message Address × MethodCall Address) → W → W × Finset Address
  | [], w => (w, ∅)
  | (msg, c) :: rest, w =>
    let r := run (vmctx.withMessage msg) (StorageMarketActor.call lib c) w
    let next := if rollback && r.ret.2.isSome then w else r.world
    let out := StorageMarketActor.exec lib vmctx rollback rest next
    (out.1, StorageMarketActor.minted lib (vmctx.withMessage msg) c w ∪ out.2)

end Sequences

/-! ## The export table -/

/-- The five handlers of the actor, as they are named in `Exports`. -/
inductive Method where
  | CreateStorageMiner
  | UpdateStorage
  | GetTotalStorage
  | PowerLookup
  | IsMiner
deriving DecidableEq

/-- A Go slice literal with keyed elements `k: v`: its length is the largest key
plus one and the slots that no key names hold nil. -/
def sliceLiteral {α : Type} (entries : List (Nat × α)) : List (Option α) :=
  (List.range (entries.foldl (fun n e => max n (e.1 + 1)) 0)).map fun i =>
    (entries.find? fun e => e.1 == i).map Prod.snd

/-- The method `StorageMarketActor.Exports`. -/
def StorageMarketActor.Exports : List (Option Method) :=
  sliceLiteral [(1, .CreateStorageMiner), (3, .UpdateStorage), (4, .GetTotalStorage),
    (5, .PowerLookup), (6, .IsMiner)]

/-- The handler a call names. -/
def MethodCall.method {Address : Type} : MethodCall Address → Method
  | .CreateStorageMiner _ => .CreateStorageMiner
  | .UpdateStorage _ => .UpdateStorage
  | .GetTotalStorage => .GetTotalStorage
  | .PowerLookup _ => .PowerLookup
  | .IsMiner _ => .IsMiner

/-! ## Serializer registration -/

/-- The struct types this file declares. -/
inductive CborType where
  | StorageMarketState
  | CreateStorageMinerParams
  | UpdateStorageParams
  | PowerLookupParams
  | IsMinerParam
deriving DecidableEq

/-- The function `cbor.RegisterCborType`, on the list of registered types. -/
def RegisterCborType (t : CborType) (registry : List CborType) : List CborType :=
  registry ++ [t]

/-- The package function `init`: four registrations, in source order. -/
def init (registry : List CborType) : List CborType :=
  RegisterCborType .PowerLookupParams
    (RegisterCborType .IsMinerParam
      (RegisterCborType .CreateStorageMinerParams
        (RegisterCborType .StorageMarketState registry)))

/-- The parameter struct a handler takes; `GetTotalStorage` takes `*struct{}`. -/
def Method.paramType : Method → Option CborType
  | .CreateStorageMiner => some .CreateStorageMinerParams
  | .UpdateStorage => some .UpdateStorageParams
  | .GetTotalStorage => none
  | .PowerLookup => some .PowerLookupParams
  | .IsMiner => some .IsMinerParam

/-! ## The sealing facade (storage/sealing.go) -/

/-- The operations of `m.sealing` that the facade calls, as functions on the state
`S` of the sealing subsystem; the subsystem itself (package `storage/sealing`) is
not part of the modelled files, so its operations are parameters. `Ctx`, `Reader`,
`SectorInfo` and `SectorState` stand for `context.Context`, `io.Reader`,
`sealing.SectorInfo` and `api.SectorState`. A Go result list ending in `error` is
a tuple ending in `Option String`. -/
structure Sealing (S Ctx Reader SectorInfo SectorState : Type) where
  AllocatePiece : S → Nat → (Nat × Nat × Option String) × S
  SealPiece : S → Ctx → Nat → Reader → Nat → Nat → Option String × S
  ListSectors : S → (List SectorInfo × Option String) × S
  GetSectorInfo : S → Nat → (SectorInfo × Option String) × S
  PledgeSector : S → Option String × S
  ForceSectorState : S → Ctx → Nat → SectorState → Option String × S

/-- The field of `Miner` that the facade reads. -/
structure Miner (S Ctx Reader SectorInfo SectorState : Type) where
  sealing : Sealing S Ctx Reader SectorInfo SectorState

/-- One call on the sealing subsystem, with its arguments in order. -/
inductive SealingCall (Ctx Reader SectorState : Type) where
  | AllocatePiece (size : Nat)
  | SealPiece (ctx : Ctx) (size : Nat) (r : Reader) (sectorID dealID : Nat)
  | ListSectors
  | GetSectorInfo (sid : Nat)
  | PledgeSector
  | ForceSectorState (ctx : Ctx) (id : Nat) (state : SectorState)

/-- A sealing subsystem that behaves like `sealing` and also records every call
made on it, in order. -/
def Sealing.recording {S Ctx Reader SectorInfo SectorState : Type}
    (sealing : Sealing S Ctx Reader SectorInfo SectorState) :
    Sealing (S × List (SealingCall Ctx Reader SectorState)) Ctx Reader SectorInfo SectorState where
  AllocatePiece st size :=
    ((sealing.AllocatePiece st.1 size).1,
      ((sealing.AllocatePiece st.1 size).2, st.2 ++ [.AllocatePiece size]))
  SealPiece st ctx size r sectorID dealID :=
    ((sealing.SealPiece st.1 ctx size r sectorID dealID).1,
      ((sealing.SealPiece st.1 ctx size r sectorID dealID).2,
        st.2 ++ [.SealPiece ctx size r sectorID dealID]))
  ListSectors st :=
    ((sealing.ListSectors st.1).1, ((sealing.ListSectors st.1).2, st.2 ++ [.ListSectors]))
  GetSectorInfo st sid :=
    ((sealing.GetSectorInfo st.1 sid).1,
      ((sealing.GetSectorInfo st.1 sid).2, st.2 ++ [.GetSectorInfo sid]))
  PledgeSector st :=
    ((sealing.PledgeSector st.1).1, ((sealing.PledgeSector st.1).2, st.2 ++ [.PledgeSector]))
  ForceSectorState st ctx id state :=
    ((sealing.ForceSectorState st.1 ctx id state).1,
      ((sealing.ForceSectorState st.1 ctx id state).2,
        st.2 ++ [.ForceSectorState ctx id state]))

section Facade

variable {S Ctx Reader SectorInfo SectorState : Type}

/-- The method `Miner.AllocatePiece`. -/
def Miner.AllocatePiece (m : Miner S Ctx Reader SectorInfo SectorState) (size : Nat) (st : S) :
    (Nat × Nat × Option String) × S :=
  m.sealing.AllocatePiece st size

/-- The method `Miner.SealPiece`. -/
def Miner.SealPiece (m : Miner S Ctx Reader SectorInfo SectorState) (ctx : Ctx) (size : Nat)
    (r : Reader) (sectorID dealID : Nat) (st : S) : Option String × S :=
  m.sealing.SealPiece st ctx size r sectorID dealID

/-- The method `Miner.ListSectors`. -/
def Miner.ListSectors (m : Miner S Ctx Reader SectorInfo SectorState) (st : S) :
    (List SectorInfo × Option String) × S :=
  m.sealing.ListSectors st

/-- The method `Miner.GetSectorInfo`. -/
def Miner.GetSectorInfo (m : Miner S Ctx Reader SectorInfo SectorState) (sid : Nat) (st : S) :
    (SectorInfo × Option String) × S :=
  m.sealing.GetSectorInfo st sid

/-- The method `Miner.PledgeSector`. -/
def Miner.PledgeSector (m : Miner S Ctx Reader SectorInfo SectorState) (st : S) :
    Option String × S :=
  m.sealing.PledgeSector st

/-- The method `Miner.ForceSectorState`. -/
def Miner.ForceSectorState (m : Miner S Ctx Reader SectorInfo SectorState) (ctx : Ctx)
    (id : Nat) (state : SectorState) (st : S) : Option String × S :=
  m.sealing.ForceSectorState st ctx id state

end Facade

/-! ## Theorems -/

section Proofs

variable {W Address Cid : Type} [DecidableEq Address]

/-- `SupportedSectorSize` compares the low 64 bits of the size with 1024. -/
theorem SupportedSectorSize_eq_true_iff (ssize : BigInt) :
    SupportedSectorSize ssize = true ↔ ssize.natAbs % 2 ^ 64 = 1024 := by
  simp [SupportedSectorSize, BigInt.Uint64, SectorSize]

/-- On a readable state `UpdateStorage` reads the head and the state, answers by
membership of the sender alone and leaves the world as it found it. -/
theorem run_UpdateStorage (lib : Lib Address Cid) (vmctx : VMContext W Address Cid)
    (params : UpdateStorageParams) (w : W) (self : StorageMarketState Address)
    (h : vmctx.Get w (vmctx.GetHead w) = .ok self) :
    run vmctx (StorageMarketActor.UpdateStorage lib params) w =
      ⟨if vmctx.Message.From ∉ self.Miners then (⟨[], 1⟩, none) else (InvokeRet.zero, none),
        w, [Effect.getHead, Effect.get (vmctx.GetHead w)]⟩ := by
  simp only [StorageMarketActor.UpdateStorage, run, h]
  split <;> simp [run]

/-- C1 (as the code behaves): with `Miners = {7}`, `TotalStorage = 0`, sender `7`
and `Delta = 5`, `UpdateStorage` is accepted (code 0, no fault) but the state at
the head after the call still has `TotalStorage = 0`, not `0 + 5`. -/
theorem C1_UpdateStorage_total_not_persisted :
    7 ∈ oneMiner.Miners ∧
    (run (ctxFrom 7 0) (StorageMarketActor.UpdateStorage natLib ⟨5⟩)
      (MemStore.single oneMiner)).ret = (⟨[], 0⟩, none) ∧
    (ctxFrom 7 0).Get
      (run (ctxFrom 7 0) (StorageMarketActor.UpdateStorage natLib ⟨5⟩)
        (MemStore.single oneMiner)).world
      ((ctxFrom 7 0).GetHead
        (run (ctxFrom 7 0) (StorageMarketActor.UpdateStorage natLib ⟨5⟩)
          (MemStore.single oneMiner)).world) = .ok ⟨{7}, 0⟩ ∧
    (0 : BigInt) ≠ oneMiner.TotalStorage + 5 := by
  refine ⟨by decide, by decide, by rfl, by decide⟩

/-- C5: on a readable state, `UpdateStorage` returns code 1 exactly when the sender
is not in `Miners`; then the result is empty, there is no fault, the world is
unchanged and nothing was put or committed; for a member the code is 0. -/
theorem C5_UpdateStorage_code_one_iff_not_miner (lib : Lib Address Cid)
    (vmctx : VMContext W Address Cid) (params : UpdateStorageParams) (w : W)
    (self : StorageMarketState Address)
    (h : vmctx.Get w (vmctx.GetHead w) = .ok self) :
    ((run vmctx (StorageMarketActor.UpdateStorage lib params) w).ret.1.ReturnCode = 1 ↔
        vmctx.Message.From ∉ self.Miners) ∧
    (vmctx.Message.From ∉ self.Miners →
      (run vmctx (StorageMarketActor.UpdateStorage lib params) w).ret = (⟨[], 1⟩, none) ∧
      (run vmctx (StorageMarketActor.UpdateStorage lib params) w).world = w ∧
      ∀ e ∈ (run vmctx (StorageMarketActor.UpdateStorage lib params) w).trace,
        e.isPut = false ∧ e.isCommit = false) ∧
    (vmctx.Message.From ∈ self.Miners →
      (run vmctx (StorageMarketActor.UpdateStorage lib params) w).ret.1.ReturnCode = 0) := by
  rw [run_UpdateStorage lib vmctx params w self h]
  by_cases hm : vmctx.Message.From ∈ self.Miners
  · simp [hm, InvokeRet.zero]
  · simp [hm, Effect.isPut, Effect.isCommit]

/-- C5 at a stranger: sender `9` is not in `{7}` and is answered with code 1. -/
theorem C5_UpdateStorage_code_one_iff_not_miner_witness :
    (ctxFrom 9 0).Get (MemStore.single oneMiner)
        ((ctxFrom 9 0).GetHead (MemStore.single oneMiner)) = .ok oneMiner ∧
    (run (ctxFrom 9 0) (StorageMarketActor.UpdateStorage natLib ⟨5⟩)
        (MemStore.single oneMiner)).ret.1.ReturnCode = 1 :=
  ⟨by rfl,
    (C5_UpdateStorage_code_one_iff_not_miner natLib (ctxFrom 9 0) ⟨5⟩
      (MemStore.single oneMiner) oneMiner (by rfl)).1.2 (by decide)⟩

/-- C2: for each of the five methods, a call that returns a nonzero `ReturnCode`
performed no `Commit` and leaves the head digest where it was, provided `Send`
itself does not move this actor's head. -/
theorem C2_nonzero_code_keeps_head (lib : Lib Address Cid) (vmctx : VMContext W Address Cid)
    (hsend : ∀ w dest method value params,
      vmctx.GetHead (vmctx.Send w dest method value params).2 = vmctx.GetHead w)
    (c : MethodCall Address) (w : W)
    (hcode : (run vmctx (StorageMarketActor.call lib c) w).ret.1.ReturnCode ≠ 0) :
    vmctx.GetHead (run vmctx (StorageMarketActor.call lib c) w).world = vmctx.GetHead w ∧
    ∀ e ∈ (run vmctx (StorageMarketActor.call lib c) w).trace, e.isCommit = false := by
  revert hcode
  cases c with
  | CreateStorageMiner params =>
    simp only [StorageMarketActor.call, StorageMarketActor.CreateStorageMiner]
    repeat' (first | split | simp only [run])
    all_goals simp [InvokeRet.zero, Effect.isCommit, hsend]
  | UpdateStorage params =>
    simp only [StorageMarketActor.call, StorageMarketActor.UpdateStorage]
    repeat' (first | split | simp only [run])
    all_goals simp [InvokeRet.zero, Effect.isCommit]
  | GetTotalStorage =>
    simp only [StorageMarketActor.call, StorageMarketActor.GetTotalStorage]
    repeat' (first | split | simp only [run])
    all_goals simp [InvokeRet.zero, Effect.isCommit]
  | PowerLookup params =>
    simp only [StorageMarketActor.call, StorageMarketActor.PowerLookup]
    repeat' (first | split | simp only [run])
    all_goals simp [InvokeRet.zero, Effect.isCommit, hsend]
  | IsMiner param =>
    simp only [StorageMarketActor.call, StorageMarketActor.IsMiner]
    repeat' (first | split | simp only [run])
    all_goals simp [InvokeRet.zero, Effect.isCommit]

/-- C2 at a rejected call: `UpdateStorage` from the stranger `9` returns code 1 and
the head stays at the digest of the stored state. -/
theorem C2_nonzero_code_keeps_head_witness :
    (run (ctxFrom 9 0) (StorageMarketActor.call natLib (.UpdateStorage ⟨5⟩))
        (MemStore.single oneMiner)).ret.1.ReturnCode ≠ 0 ∧
    (ctxFrom 9 0).GetHead
        (run (ctxFrom 9 0) (StorageMarketActor.call natLib (.UpdateStorage ⟨5⟩))
          (MemStore.single oneMiner)).world = natDigest oneMiner :=
  ⟨by decide,
    (C2_nonzero_code_keeps_head natLib (ctxFrom 9 0) (fun _ _ _ _ _ => rfl)
      (.UpdateStorage ⟨5⟩) (MemStore.single oneMiner) (by decide)).1⟩

/-- C3: over a lawful store, a `CreateStorageMiner` call that returns code 0 without
fault parsed an address `M` from the return bytes of its Exec send, returns the
bytes of `M` as `Result`, and `M` is in `Miners` of the state at the head after
the call. -/
theorem C3_CreateStorageMiner_registers_returned_address (lib : Lib Address Cid)
    (vmctx : VMContext W Address Cid) (hlaw : LawfulStore vmctx)
    (params : CreateStorageMinerParams Address) (w : W)
    (hcode : (run vmctx (StorageMarketActor.CreateStorageMiner lib params) w).ret.1.ReturnCode = 0)
    (herr : (run vmctx (StorageMarketActor.CreateStorageMiner lib params) w).ret.2 = none) :
    ∃ encoded M self,
      lib.CreateExecParams lib.StorageMinerCodeCid
        ⟨params.Owner, params.Worker, params.SectorSize, params.PeerID⟩ = .ok encoded ∧
      lib.NewFromBytes
        (vmctx.Send w lib.InitActorAddress 1 vmctx.Message.Value encoded).1.ret = .ok M ∧
      (run vmctx (StorageMarketActor.CreateStorageMiner lib params) w).ret.1.Result =
        lib.AddressBytes M ∧
      vmctx.Get (run vmctx (StorageMarketActor.CreateStorageMiner lib params) w).world
        (vmctx.GetHead (run vmctx (StorageMarketActor.CreateStorageMiner lib params) w).world)
        = .ok self ∧
      M ∈ self.Miners := by
  revert hcode herr
  simp only [StorageMarketActor.CreateStorageMiner]
  repeat' (first | split | simp only [run])
  all_goals simp [InvokeRet.zero]
  rename_i encoded hc _ _ _ _ M hM _ self _ _ nroot hp _ hcm
  refine ⟨encoded, hc, M, hM, rfl, ⟨insert M self.Miners, self.TotalStorage⟩, ?_,
    Finset.mem_insert_self _ _⟩
  rw [hlaw.commit_head _ _ _ hcm, hlaw.commit_get _ _ _ _ hcm]
  exact hlaw.get_put _ _ _ hp

/-- The in-memory store satisfies the store laws, whatever the digest and the
answers of `Send`. -/
theorem MemStore.vmctx_lawful {A C : Type} [DecidableEq C]
    (digest : StorageMarketState A → C) (msg : Message A)
    (answer : A → Nat → BigInt → Bytes → SendRet) :
    LawfulStore (MemStore.vmctx digest msg answer) where
  get_put := by
    intro w s c h
    simp only [MemStore.vmctx, Except.ok.injEq] at h
    subst h
    simp [MemStore.vmctx]
  commit_head := by
    intro w old new h
    simp only [MemStore.vmctx] at h ⊢
    by_cases hh : w.head = old
    · simp [hh]
    · simp [hh] at h
  commit_get := by
    intro w old new c h
    simp only [MemStore.vmctx] at h ⊢
    by_cases hh : w.head = old
    · simp [hh]
    · simp [hh] at h

/-- C3 at genesis: creating a miner with sector size 1024, where Exec answers the
address `42`, returns the bytes of `42` and the state at the new head holds `42`. -/
theorem C3_CreateStorageMiner_registers_returned_address_witness :
    (run (ctxFrom 1 0) (StorageMarketActor.CreateStorageMiner natLib ⟨1, 2, 1024, "peer"⟩)
        (MemStore.single genesis)).ret = (⟨[42], 0⟩, none) ∧
    ∃ encoded M self,
      natLib.CreateExecParams natLib.StorageMinerCodeCid ⟨1, 2, 1024, "peer"⟩ = .ok encoded ∧
      natLib.NewFromBytes
        ((ctxFrom 1 0).Send (MemStore.single genesis) natLib.InitActorAddress 1
          (ctxFrom 1 0).Message.Value encoded).1.ret = .ok M ∧
      (run (ctxFrom 1 0) (StorageMarketActor.CreateStorageMiner natLib ⟨1, 2, 1024, "peer"⟩)
        (MemStore.single genesis)).ret.1.Result = natLib.AddressBytes M ∧
      (ctxFrom 1 0).Get
        (run (ctxFrom 1 0) (StorageMarketActor.CreateStorageMiner natLib ⟨1, 2, 1024, "peer"⟩)
          (MemStore.single genesis)).world
        ((ctxFrom 1 0).GetHead
          (run (ctxFrom 1 0) (StorageMarketActor.CreateStorageMiner natLib ⟨1, 2, 1024, "peer"⟩)
            (MemStore.single genesis)).world) = .ok self ∧
      M ∈ self.Miners :=
  ⟨by decide,
    C3_CreateStorageMiner_registers_returned_address natLib (ctxFrom 1 0)
      (MemStore.vmctx_lawful _ _ _) ⟨1, 2, 1024, "peer"⟩ (MemStore.single genesis)
      (by decide) (by decide)⟩

/-- C4 (as the code behaves): the non-negative size `2 ^ 64 + 1024` is not 1024, yet
`SupportedSectorSize` returns true for it, because `Uint64` keeps the low 64 bits;
`CreateStorageMiner` then does not return code 1: it sends Exec and registers the
answered address `42`. -/
theorem C4_SupportedSectorSize_accepts_size_above_uint64 :
    (0 : BigInt) ≤ 2 ^ 64 + 1024 ∧ (2 ^ 64 + 1024 : BigInt) ≠ 1024 ∧
    SupportedSectorSize (2 ^ 64 + 1024) = true ∧
    (run (ctxFrom 1 0)
      (StorageMarketActor.CreateStorageMiner natLib ⟨1, 2, 2 ^ 64 + 1024, "peer"⟩)
      (MemStore.single genesis)).ret = (⟨[42], 0⟩, none) ∧
    ((run (ctxFrom 1 0)
      (StorageMarketActor.CreateStorageMiner natLib ⟨1, 2, 2 ^ 64 + 1024, "peer"⟩)
      (MemStore.single genesis)).trace.any Effect.isSend) = true ∧
    (ctxFrom 1 0).Get
      (run (ctxFrom 1 0)
        (StorageMarketActor.CreateStorageMiner natLib ⟨1, 2, 2 ^ 64 + 1024, "peer"⟩)
        (MemStore.single genesis)).world
      ((ctxFrom 1 0).GetHead
        (run (ctxFrom 1 0)
          (StorageMarketActor.CreateStorageMiner natLib ⟨1, 2, 2 ^ 64 + 1024, "peer"⟩)
          (MemStore.single genesis)).world) = .ok ⟨{42}, 0⟩ := by
  refine ⟨by decide, by decide, by decide, by decide, by decide, by rfl⟩

/-- Within the `uint64` range, `SupportedSectorSize` holds exactly at 1024. -/
theorem SupportedSectorSize_of_lt (ssize : Int) (h0 : 0 ≤ ssize) (hlt : ssize < 2 ^ 64) :
    SupportedSectorSize ssize = true ↔ ssize = 1024 := by
  rw [SupportedSectorSize_eq_true_iff]
  have hlt2 : ssize < 18446744073709551616 := by norm_num at hlt; exact hlt
  have h1 : ssize.natAbs < 2 ^ 64 := by norm_num; omega
  rw [Nat.mod_eq_of_lt h1]
  constructor <;> intro h <;> omega

/-- A size that `SupportedSectorSize` refuses is answered with code 1 before any
operation on the context. -/
theorem run_CreateStorageMiner_unsupported (lib : Lib Address Cid)
    (vmctx : VMContext W Address Cid) (params : CreateStorageMinerParams Address) (w : W)
    (h : SupportedSectorSize params.SectorSize = false) :
    run vmctx (StorageMarketActor.CreateStorageMiner lib params) w =
      ⟨(⟨[], 1⟩, none), w, []⟩ := by
  simp [StorageMarketActor.CreateStorageMiner, h, run]

/-- On a readable state `PowerLookup` of a non-member stops after reading. -/
theorem run_PowerLookup_non_member (lib : Lib Address Cid) (vmctx : VMContext W Address Cid)
    (params : PowerLookupParams Address) (w : W) (self : StorageMarketState Address)
    (h : vmctx.Get w (vmctx.GetHead w) = .ok self) (hN : params.Miner ∉ self.Miners) :
    run vmctx (StorageMarketActor.PowerLookup lib params) w =
      ⟨(⟨[], 1⟩, none), w, [Effect.getHead, Effect.get (vmctx.GetHead w)]⟩ := by
  simp [StorageMarketActor.PowerLookup, run, h, hN]

/-- On a readable state `PowerLookup` of a member reads, sends `GetPower` to the
miner and answers from what the send returned. -/
theorem run_PowerLookup_member (lib : Lib Address Cid) (vmctx : VMContext W Address Cid)
    (params : PowerLookupParams Address) (w : W) (self : StorageMarketState Address)
    (h : vmctx.Get w (vmctx.GetHead w) = .ok self) (hM : params.Miner ∈ self.Miners) :
    run vmctx (StorageMarketActor.PowerLookup lib params) w =
      ⟨(match (vmctx.Send w params.Miner 9 0 lib.EmptyStructCBOR).1.err with
        | some err => (InvokeRet.zero, some ("invoke Miner.GetPower: " ++ err))
        | none =>
          if (vmctx.Send w params.Miner 9 0 lib.EmptyStructCBOR).1.exit ≠ 0 then
            (⟨[], (vmctx.Send w params.Miner 9 0 lib.EmptyStructCBOR).1.exit⟩, none)
          else (⟨(vmctx.Send w params.Miner 9 0 lib.EmptyStructCBOR).1.ret, 0⟩, none)),
        (vmctx.Send w params.Miner 9 0 lib.EmptyStructCBOR).2,
        [Effect.getHead, Effect.get (vmctx.GetHead w),
          Effect.send params.Miner 9 0 lib.EmptyStructCBOR]⟩ := by
  have hz : NewInt 0 = 0 := rfl
  simp only [StorageMarketActor.PowerLookup, run, h, hM, not_true_eq_false, if_false, hz]
  repeat' (first | split | simp only [run])

/-- C6: on a readable state, `PowerLookup` of an address that is not in `Miners`
returns code 1 with empty result and no fault, and emits no `Send`. -/
theorem C6_PowerLookup_non_member_rejected (lib : Lib Address Cid)
    (vmctx : VMContext W Address Cid) (params : PowerLookupParams Address) (w : W)
    (self : StorageMarketState Address)
    (h : vmctx.Get w (vmctx.GetHead w) = .ok self) (hN : params.Miner ∉ self.Miners) :
    (run vmctx (StorageMarketActor.PowerLookup lib params) w).ret = (⟨[], 1⟩, none) ∧
    ∀ e ∈ (run vmctx (StorageMarketActor.PowerLookup lib params) w).trace,
      e.isSend = false := by
  rw [run_PowerLookup_non_member lib vmctx params w self h hN]
  simp [Effect.isSend]

/-- C6 at a concrete lookup: `8` is not in `{7}`. -/
theorem C6_PowerLookup_non_member_rejected_witness :
    (8 : Nat) ∉ oneMiner.Miners ∧
    (run (ctxFrom 1 0) (StorageMarketActor.PowerLookup natLib ⟨8⟩)
      (MemStore.single oneMiner)).ret = (⟨[], 1⟩, none) :=
  ⟨by decide,
    (C6_PowerLookup_non_member_rejected natLib (ctxFrom 1 0) ⟨8⟩ (MemStore.single oneMiner)
      oneMiner (by rfl) (by decide)).1⟩

/-- C7: on a readable state, `PowerLookup` of a member `M` emits exactly one `Send`,
to `M`, method 9, value zero, payload `EmptyStructCBOR`. When that send returns
without error and with exit code 0 the call returns code 0 and the returned bytes;
when it returns without error and with a nonzero exit code the call returns that
code and an empty result. -/
theorem C7_PowerLookup_member_proxies (lib : Lib Address Cid)
    (vmctx : VMContext W Address Cid) (params : PowerLookupParams Address) (w : W)
    (self : StorageMarketState Address)
    (h : vmctx.Get w (vmctx.GetHead w) = .ok self) (hM : params.Miner ∈ self.Miners) :
    (run vmctx (StorageMarketActor.PowerLookup lib params) w).trace.filter Effect.isSend =
      [Effect.send params.Miner 9 0 lib.EmptyStructCBOR] ∧
    ((vmctx.Send w params.Miner 9 0 lib.EmptyStructCBOR).1.err = none →
      (vmctx.Send w params.Miner 9 0 lib.EmptyStructCBOR).1.exit = 0 →
      (run vmctx (StorageMarketActor.PowerLookup lib params) w).ret =
        (⟨(vmctx.Send w params.Miner 9 0 lib.EmptyStructCBOR).1.ret, 0⟩, none)) ∧
    ((vmctx.Send w params.Miner 9 0 lib.EmptyStructCBOR).1.err = none →
      (vmctx.Send w params.Miner 9 0 lib.EmptyStructCBOR).1.exit ≠ 0 →
      (run vmctx (StorageMarketActor.PowerLookup lib params) w).ret =
        (⟨[], (vmctx.Send w params.Miner 9 0 lib.EmptyStructCBOR).1.exit⟩, none)) := by
  rw [run_PowerLookup_member lib vmctx params w self h hM]
  refine ⟨by simp [List.filter, Effect.isSend], ?_, ?_⟩
  · intro he hx
    simp [he, hx]
  · intro he hx
    simp [he, hx]

/-- C7 at a concrete lookup: miner `7` answers the bytes of "7" with exit code 0. -/
theorem C7_PowerLookup_member_proxies_witness :
    (7 : Nat) ∈ oneMiner.Miners ∧
    (run (ctxFrom 1 0) (StorageMarketActor.PowerLookup natLib ⟨7⟩)
      (MemStore.single oneMiner)).ret = (⟨[55], 0⟩, none) :=
  ⟨by decide,
    (C7_PowerLookup_member_proxies natLib (ctxFrom 1 0) ⟨7⟩ (MemStore.single oneMiner)
      oneMiner (by rfl) (by decide)).2.1 (by rfl) (by rfl)⟩

/-- On a readable state `IsMiner` reads the head and the state, serializes the
membership flag and leaves the world as it found it. -/
theorem run_IsMiner (lib : Lib Address Cid) (vmctx : VMContext W Address Cid)
    (param : IsMinerParam Address) (w : W) (self : StorageMarketState Address)
    (h : vmctx.Get w (vmctx.GetHead w) = .ok self) :
    run vmctx (StorageMarketActor.IsMiner lib param) w =
      ⟨(match lib.SerializeParams (decide (param.Addr ∈ self.Miners)) with
        | .error err => (InvokeRet.zero, some err)
        | .ok out => (⟨out, 0⟩, none)),
        w, [Effect.getHead, Effect.get (vmctx.GetHead w)]⟩ := by
  simp only [StorageMarketActor.IsMiner, run, h]
  split <;> simp [run]

/-- C8: on a readable state, `IsMiner(A)` returns code 0; its result is the
serialization of `true` when `A` is in `Miners` and of `false` when it is not; it
emits no `Send`, performs no `Put` or `Commit` and leaves the world unchanged. -/
theorem C8_IsMiner_returns_encoded_membership (lib : Lib Address Cid)
    (vmctx : VMContext W Address Cid) (param : IsMinerParam Address) (w : W)
    (self : StorageMarketState Address)
    (h : vmctx.Get w (vmctx.GetHead w) = .ok self) :
    (run vmctx (StorageMarketActor.IsMiner lib param) w).ret.1.ReturnCode = 0 ∧
    (∀ out, param.Addr ∈ self.Miners → lib.SerializeParams true = .ok out →
      (run vmctx (StorageMarketActor.IsMiner lib param) w).ret = (⟨out, 0⟩, none)) ∧
    (∀ out, param.Addr ∉ self.Miners → lib.SerializeParams false = .ok out →
      (run vmctx (StorageMarketActor.IsMiner lib param) w).ret = (⟨out, 0⟩, none)) ∧
    (run vmctx (StorageMarketActor.IsMiner lib param) w).world = w ∧
    ∀ e ∈ (run vmctx (StorageMarketActor.IsMiner lib param) w).trace,
      e.isSend = false ∧ e.isPut = false ∧ e.isCommit = false := by
  rw [run_IsMiner lib vmctx param w self h]
  refine ⟨?_, ?_, ?_, rfl, by simp [Effect.isSend, Effect.isPut, Effect.isCommit]⟩
  · split <;> simp [InvokeRet.zero]
  · intro out hm hs
    simp [hm, hs]
  · intro out hm hs
    simp [hm, hs]

/-- C8 at a concrete state: `7` is a miner of `{7}` and `IsMiner(7)` returns the
encoding of `true`. -/
theorem C8_IsMiner_returns_encoded_membership_witness :
    (7 : Nat) ∈ oneMiner.Miners ∧
    (run (ctxFrom 1 0) (StorageMarketActor.IsMiner natLib ⟨7⟩)
      (MemStore.single oneMiner)).ret = (⟨[0xf5], 0⟩, none) :=
  ⟨by decide,
    (C8_IsMiner_returns_encoded_membership natLib (ctxFrom 1 0) ⟨7⟩
      (MemStore.single oneMiner) oneMiner (by rfl)).2.1 [0xf5] (by decide) (by rfl)⟩

/-- C10: when the sector size is supported, the Exec parameters encode and the Exec
send returns a nonzero exit code without error, `CreateStorageMiner` returns code 2
with empty result and no fault; the send is the only operation it performed (no
`Get`, `Put` or `Commit`), so it leaves the world exactly as the send left it. -/
theorem C10_CreateStorageMiner_exec_rejected (lib : Lib Address Cid)
    (vmctx : VMContext W Address Cid) (params : CreateStorageMinerParams Address) (w : W)
    (encoded : Bytes)
    (hs : SupportedSectorSize params.SectorSize = true)
    (hc : lib.CreateExecParams lib.StorageMinerCodeCid
      ⟨params.Owner, params.Worker, params.SectorSize, params.PeerID⟩ = .ok encoded)
    (he : (vmctx.Send w lib.InitActorAddress 1 vmctx.Message.Value encoded).1.err = none)
    (hx : (vmctx.Send w lib.InitActorAddress 1 vmctx.Message.Value encoded).1.exit ≠ 0) :
    (run vmctx (StorageMarketActor.CreateStorageMiner lib params) w).ret = (⟨[], 2⟩, none) ∧
    (run vmctx (StorageMarketActor.CreateStorageMiner lib params) w).world =
      (vmctx.Send w lib.InitActorAddress 1 vmctx.Message.Value encoded).2 ∧
    (run vmctx (StorageMarketActor.CreateStorageMiner lib params) w).trace =
      [Effect.send lib.InitActorAddress 1 vmctx.Message.Value encoded] ∧
    ∀ e ∈ (run vmctx (StorageMarketActor.CreateStorageMiner lib params) w).trace,
      e.isGet = false ∧ e.isPut = false ∧ e.isCommit = false := by
  simp [StorageMarketActor.CreateStorageMiner, hs, hc, run, he, hx, Effect.isGet,
    Effect.isPut, Effect.isCommit]

/-- C10 at a concrete call: the callee rejects Exec with exit code 3 and the store
still holds the genesis state at its head. -/
theorem C10_CreateStorageMiner_exec_rejected_witness :
    (run (ctxRejecting 1 0) (StorageMarketActor.CreateStorageMiner natLib ⟨1, 2, 1024, "peer"⟩)
      (MemStore.single genesis)).ret = (⟨[], 2⟩, none) ∧
    (run (ctxRejecting 1 0) (StorageMarketActor.CreateStorageMiner natLib ⟨1, 2, 1024, "peer"⟩)
      (MemStore.single genesis)).world = MemStore.single genesis :=
  ⟨(C10_CreateStorageMiner_exec_rejected natLib (ctxRejecting 1 0) ⟨1, 2, 1024, "peer"⟩
      (MemStore.single genesis) [100, 1, 2] (by decide) (by rfl) (by rfl) (by decide)).1,
    (C10_CreateStorageMiner_exec_rejected natLib (ctxRejecting 1 0) ⟨1, 2, 1024, "peer"⟩
      (MemStore.single genesis) [100, 1, 2] (by decide) (by rfl) (by rfl) (by decide)).2.1⟩

end Proofs

section Reads

variable {W Address Cid : Type}

/-- On a readable state `GetTotalStorage` reads the head and the state and returns
the bytes of the stored total. -/
theorem run_GetTotalStorage (lib : Lib Address Cid) (vmctx : VMContext W Address Cid)
    (w : W) (self : StorageMarketState Address)
    (h : vmctx.Get w (vmctx.GetHead w) = .ok self) :
    run vmctx (StorageMarketActor.GetTotalStorage lib) w =
      ⟨(⟨lib.BigIntBytes self.TotalStorage, 0⟩, none), w,
        [Effect.getHead, Effect.get (vmctx.GetHead w)]⟩ := by
  simp [StorageMarketActor.GetTotalStorage, run, h]

/-- C9: on a readable state, `GetTotalStorage` returns code 0 and the bytes of the
`TotalStorage` of the state at the head; it emits no `Send`, performs no `Put` or
`Commit`, and the world and its head are unchanged. -/
theorem C9_GetTotalStorage_returns_total (lib : Lib Address Cid)
    (vmctx : VMContext W Address Cid) (w : W) (self : StorageMarketState Address)
    (h : vmctx.Get w (vmctx.GetHead w) = .ok self) :
    (run vmctx (StorageMarketActor.GetTotalStorage lib) w).ret =
      (⟨lib.BigIntBytes self.TotalStorage, 0⟩, none) ∧
    (run vmctx (StorageMarketActor.GetTotalStorage lib) w).world = w ∧
    vmctx.GetHead (run vmctx (StorageMarketActor.GetTotalStorage lib) w).world =
      vmctx.GetHead w ∧
    ∀ e ∈ (run vmctx (StorageMarketActor.GetTotalStorage lib) w).trace,
      e.isSend = false ∧ e.isPut = false ∧ e.isCommit = false := by
  rw [run_GetTotalStorage lib vmctx w self h]
  simp [Effect.isSend, Effect.isPut, Effect.isCommit]

/-- C9 at a concrete state: the total `9` of the stored state is returned. -/
theorem C9_GetTotalStorage_returns_total_witness :
    (ctxFrom 1 0).Get (MemStore.single ⟨{7}, 9⟩)
      ((ctxFrom 1 0).GetHead (MemStore.single ⟨{7}, 9⟩)) = .ok ⟨{7}, 9⟩ ∧
    (run (ctxFrom 1 0) (StorageMarketActor.GetTotalStorage natLib)
      (MemStore.single ⟨{7}, 9⟩)).ret = (⟨[9], 0⟩, none) :=
  ⟨by rfl,
    (C9_GetTotalStorage_returns_total natLib (ctxFrom 1 0) (MemStore.single ⟨{7}, 9⟩)
      ⟨{7}, 9⟩ (by rfl)).1⟩

end Reads

section Effects

variable {W Address Cid : Type} [DecidableEq Address]

/-- C11: when the sector size is supported and the Exec parameters encode to
`encoded` (the encoding of `StorageMinerCodeCid` and constructor parameters with
the Owner, Worker, SectorSize and PeerID of the input), `CreateStorageMiner` emits
exactly one `Send`: to `InitActorAddress`, method 1, with the value of the
incoming message and `encoded` as parameters. -/
theorem C11_CreateStorageMiner_sends_exec_once (lib : Lib Address Cid)
    (vmctx : VMContext W Address Cid) (params : CreateStorageMinerParams Address) (w : W)
    (encoded : Bytes)
    (hs : SupportedSectorSize params.SectorSize = true)
    (hc : lib.CreateExecParams lib.StorageMinerCodeCid
      ⟨params.Owner, params.Worker, params.SectorSize, params.PeerID⟩ = .ok encoded) :
    (run vmctx (StorageMarketActor.CreateStorageMiner lib params) w).trace.filter Effect.isSend =
      [Effect.send lib.InitActorAddress 1 vmctx.Message.Value encoded] := by
  simp only [StorageMarketActor.CreateStorageMiner, hs, hc, run]
  repeat' (first | split | simp only [run])
  all_goals simp_all [List.filter, Effect.isSend]

/-- C11 at genesis: the one send goes to the init actor `0`, method 1, with the
message value `5` and the encoded parameters. -/
theorem C11_CreateStorageMiner_sends_exec_once_witness :
    SupportedSectorSize 1024 = true ∧
    (run (ctxFrom 1 5) (StorageMarketActor.CreateStorageMiner natLib ⟨1, 2, 1024, "peer"⟩)
      (MemStore.single genesis)).trace.filter Effect.isSend =
      [Effect.send 0 1 5 [100, 1, 2]] :=
  ⟨by decide,
    C11_CreateStorageMiner_sends_exec_once natLib (ctxFrom 1 5) ⟨1, 2, 1024, "peer"⟩
      (MemStore.single genesis) [100, 1, 2] (by decide) (by rfl)⟩

/-- C12: for every world, sender and `Delta`, `UpdateStorage` performs no `Put` and
no `Commit` and leaves the world, hence the head digest, as it was; a following
`GetTotalStorage` returns what it would have returned before the call. -/
theorem C12_UpdateStorage_persists_nothing (lib : Lib Address Cid)
    (vmctx : VMContext W Address Cid) (params : UpdateStorageParams) (w : W) :
    (∀ e ∈ (run vmctx (StorageMarketActor.UpdateStorage lib params) w).trace,
      e.isPut = false ∧ e.isCommit = false) ∧
    (run vmctx (StorageMarketActor.UpdateStorage lib params) w).world = w ∧
    vmctx.GetHead (run vmctx (StorageMarketActor.UpdateStorage lib params) w).world =
      vmctx.GetHead w ∧
    (run vmctx (StorageMarketActor.GetTotalStorage lib)
        (run vmctx (StorageMarketActor.UpdateStorage lib params) w).world).ret =
      (run vmctx (StorageMarketActor.GetTotalStorage lib) w).ret := by
  have hw : (run vmctx (StorageMarketActor.UpdateStorage lib params) w).world = w := by
    simp only [StorageMarketActor.UpdateStorage, run]
    repeat' (first | split | simp only [run])
  refine ⟨?_, hw, by rw [hw], by rw [hw]⟩
  simp only [StorageMarketActor.UpdateStorage, run]
  repeat' (first | split | simp only [run])
  all_goals simp [Effect.isPut, Effect.isCommit]

/-- C14: for each of the five methods, a call that returns a nonzero `ReturnCode`
returns an empty `Result`. -/
theorem C14_nonzero_code_empty_result (lib : Lib Address Cid) (vmctx : VMContext W Address Cid)
    (c : MethodCall Address) (w : W)
    (hcode : (run vmctx (StorageMarketActor.call lib c) w).ret.1.ReturnCode ≠ 0) :
    (run vmctx (StorageMarketActor.call lib c) w).ret.1.Result = [] := by
  revert hcode
  cases c with
  | CreateStorageMiner params =>
    simp only [StorageMarketActor.call, StorageMarketActor.CreateStorageMiner]
    repeat' (first | split | simp only [run])
    all_goals simp [InvokeRet.zero]
  | UpdateStorage params =>
    simp only [StorageMarketActor.call, StorageMarketActor.UpdateStorage]
    repeat' (first | split | simp only [run])
    all_goals simp [InvokeRet.zero]
  | GetTotalStorage =>
    simp only [StorageMarketActor.call, StorageMarketActor.GetTotalStorage]
    repeat' (first | split | simp only [run])
    all_goals simp [InvokeRet.zero]
  | PowerLookup params =>
    simp only [StorageMarketActor.call, StorageMarketActor.PowerLookup]
    repeat' (first | split | simp only [run])
    all_goals simp [InvokeRet.zero]
  | IsMiner param =>
    simp only [StorageMarketActor.call, StorageMarketActor.IsMiner]
    repeat' (first | split | simp only [run])
    all_goals simp [InvokeRet.zero]

/-- C14 at a rejected call: the Exec send is rejected, `CreateStorageMiner` returns
code 2 and its result is empty. -/
theorem C14_nonzero_code_empty_result_witness :
    (run (ctxRejecting 1 0)
      (StorageMarketActor.call natLib (.CreateStorageMiner ⟨1, 2, 1024, "peer"⟩))
      (MemStore.single genesis)).ret.1.ReturnCode = 2 ∧
    (run (ctxRejecting 1 0)
      (StorageMarketActor.call natLib (.CreateStorageMiner ⟨1, 2, 1024, "peer"⟩))
      (MemStore.single genesis)).ret.1.Result = [] :=
  ⟨by decide,
    C14_nonzero_code_empty_result natLib (ctxRejecting 1 0)
      (.CreateStorageMiner ⟨1, 2, 1024, "peer"⟩) (MemStore.single genesis) (by decide)⟩

/-- C13: for each of the five methods, a call that returns a non-nil error returns
the zero `InvokeRet` (code 0, empty result); and over a store whose head moves only
by a successful `Commit`, the head after the call is the head before it. -/
theorem C13_fault_returns_zero_and_keeps_head (lib : Lib Address Cid)
    (vmctx : VMContext W Address Cid) (c : MethodCall Address) (w : W)
    (herr : (run vmctx (StorageMarketActor.call lib c) w).ret.2 ≠ none) :
    (run vmctx (StorageMarketActor.call lib c) w).ret.1 = InvokeRet.zero ∧
    (HeadFrame vmctx →
      vmctx.GetHead (run vmctx (StorageMarketActor.call lib c) w).world = vmctx.GetHead w) := by
  revert herr
  cases c with
  | CreateStorageMiner params =>
    simp only [StorageMarketActor.call, StorageMarketActor.CreateStorageMiner]
    repeat' (first | split | simp only [run])
    all_goals simp [InvokeRet.zero]
    all_goals intro hf
    all_goals first
      | exact hf.send_head _ _ _ _ _
      | rw [hf.put_head, hf.send_head]
      | (rename_i hcm
         rw [hf.commit_fail_head _ _ _ (by rw [hcm]; simp), hf.put_head, hf.send_head])
  | UpdateStorage params =>
    simp only [StorageMarketActor.call, StorageMarketActor.UpdateStorage]
    repeat' (first | split | simp only [run])
    all_goals simp [InvokeRet.zero]
  | GetTotalStorage =>
    simp only [StorageMarketActor.call, StorageMarketActor.GetTotalStorage]
    repeat' (first | split | simp only [run])
    all_goals simp [InvokeRet.zero]
  | PowerLookup params =>
    simp only [StorageMarketActor.call, StorageMarketActor.PowerLookup]
    repeat' (first | split | simp only [run])
    all_goals simp [InvokeRet.zero]
    all_goals intro hf
    all_goals simp [hf.send_head]
  | IsMiner param =>
    simp only [StorageMarketActor.call, StorageMarketActor.IsMiner]
    repeat' (first | split | simp only [run])
    all_goals simp [InvokeRet.zero]

/-- The in-memory store moves its head only by a successful `Commit`. -/
theorem MemStore.vmctx_headFrame {A C : Type} [DecidableEq C]
    (digest : StorageMarketState A → C) (msg : Message A)
    (answer : A → Nat → BigInt → Bytes → SendRet) :
    HeadFrame (MemStore.vmctx digest msg answer) where
  send_head := by intros; rfl
  put_head := by intros; rfl
  commit_fail_head := by
    intro w old new h
    simp only [MemStore.vmctx] at h ⊢
    by_cases hh : w.head = old
    · simp [hh] at h
    · simp [hh]

/-- C13 at a fault: the head `5` names no stored object, `GetTotalStorage` fails
reading it, returns the zero `InvokeRet` and the head is still `5`. -/
theorem C13_fault_returns_zero_and_keeps_head_witness :
    (run (ctxFrom 1 0) (StorageMarketActor.call natLib .GetTotalStorage)
      (⟨5, []⟩ : MemStore Nat Nat)).ret = (InvokeRet.zero, some "not found") ∧
    (ctxFrom 1 0).GetHead
      (run (ctxFrom 1 0) (StorageMarketActor.call natLib .GetTotalStorage)
        (⟨5, []⟩ : MemStore Nat Nat)).world = 5 :=
  ⟨by decide,
    (C13_fault_returns_zero_and_keeps_head natLib (ctxFrom 1 0) .GetTotalStorage ⟨5, []⟩
      (by decide)).2 (MemStore.vmctx_headFrame _ _ _)⟩

end Effects

/-- C15: the export table has exactly 7 slots; slot 1 holds `CreateStorageMiner`,
3 `UpdateStorage`, 4 `GetTotalStorage`, 5 `PowerLookup`, 6 `IsMiner`; slots 0 and 2
are empty and every id of 7 or above is outside the table. -/
theorem C15_Exports_table :
    StorageMarketActor.Exports.length = 7 ∧
    StorageMarketActor.Exports[1]? = some (some Method.CreateStorageMiner) ∧
    StorageMarketActor.Exports[3]? = some (some Method.UpdateStorage) ∧
    StorageMarketActor.Exports[4]? = some (some Method.GetTotalStorage) ∧
    StorageMarketActor.Exports[5]? = some (some Method.PowerLookup) ∧
    StorageMarketActor.Exports[6]? = some (some Method.IsMiner) ∧
    StorageMarketActor.Exports[0]? = some none ∧
    StorageMarketActor.Exports[2]? = some none ∧
    (∀ i, 7 ≤ i → StorageMarketActor.Exports[i]? = none) ∧
    (∀ i m, StorageMarketActor.Exports[i]? = some (some m) →
      (i, m) ∈ [(1, Method.CreateStorageMiner), (3, Method.UpdateStorage),
        (4, Method.GetTotalStorage), (5, Method.PowerLookup), (6, Method.IsMiner)]) := by
  have hx : StorageMarketActor.Exports =
      [none, some .CreateStorageMiner, none, some .UpdateStorage, some .GetTotalStorage,
        some .PowerLookup, some .IsMiner] := by decide
  refine ⟨by decide, by decide, by decide, by decide, by decide, by decide, by decide,
    by decide, ?_, ?_⟩
  · intro i hi
    rw [hx]
    exact List.getElem?_eq_none (by simpa using hi)
  · intro i m h
    rw [hx] at h
    match i, h with
    | 0, h => simp at h
    | 1, h => simp at h; simp [← h]
    | 2, h => simp at h
    | 3, h => simp at h; simp [← h]
    | 4, h => simp at h; simp [← h]
    | 5, h => simp at h; simp [← h]
    | 6, h => simp at h; simp [← h]
    | n + 7, h => simp at h

/-- C19 (as the code behaves): `init` registers `StorageMarketState`,
`CreateStorageMinerParams`, `IsMinerParam` and `PowerLookupParams` and nothing else;
`UpdateStorageParams`, the parameter struct of the exported method 3, is not
registered. -/
theorem C19_init_does_not_register_UpdateStorageParams :
    init [] = [CborType.StorageMarketState, CborType.CreateStorageMinerParams,
      CborType.IsMinerParam, CborType.PowerLookupParams] ∧
    StorageMarketActor.Exports[3]? = some (some Method.UpdateStorage) ∧
    Method.UpdateStorage.paramType = some CborType.UpdateStorageParams ∧
    CborType.UpdateStorageParams ∉ init [] := by
  refine ⟨by decide, by decide, by decide, by decide⟩

section FacadeProofs

variable {S Ctx Reader SectorInfo SectorState : Type}

/-- C20: each facade method returns exactly what the same-named operation of
`m.sealing` returns for the same arguments in the same order, results, error and
resulting state alike; and run against a recording subsystem, each facade method
adds exactly that one call to the record. -/
theorem C20_facade_delegates (m : Miner S Ctx Reader SectorInfo SectorState)
    (ctx : Ctx) (r : Reader) (state : SectorState) (size sectorID dealID sid id : Nat)
    (st : S) (log : List (SealingCall Ctx Reader SectorState)) :
    (m.AllocatePiece size st = m.sealing.AllocatePiece st size ∧
      m.SealPiece ctx size r sectorID dealID st =
        m.sealing.SealPiece st ctx size r sectorID dealID ∧
      m.ListSectors st = m.sealing.ListSectors st ∧
      m.GetSectorInfo sid st = m.sealing.GetSectorInfo st sid ∧
      m.PledgeSector st = m.sealing.PledgeSector st ∧
      m.ForceSectorState ctx id state st = m.sealing.ForceSectorState st ctx id state) ∧
    ((Miner.mk m.sealing.recording).AllocatePiece size (st, log) =
        ((m.sealing.AllocatePiece st size).1,
          ((m.sealing.AllocatePiece st size).2, log ++ [.AllocatePiece size])) ∧
      (Miner.mk m.sealing.recording).SealPiece ctx size r sectorID dealID (st, log) =
        ((m.sealing.SealPiece st ctx size r sectorID dealID).1,
          ((m.sealing.SealPiece st ctx size r sectorID dealID).2,
            log ++ [.SealPiece ctx size r sectorID dealID])) ∧
      (Miner.mk m.sealing.recording).ListSectors (st, log) =
        ((m.sealing.ListSectors st).1, ((m.sealing.ListSectors st).2, log ++ [.ListSectors])) ∧
      (Miner.mk m.sealing.recording).GetSectorInfo sid (st, log) =
        ((m.sealing.GetSectorInfo st sid).1,
          ((m.sealing.GetSectorInfo st sid).2, log ++ [.GetSectorInfo sid])) ∧
      (Miner.mk m.sealing.recording).PledgeSector (st, log) =
        ((m.sealing.PledgeSector st).1, ((m.sealing.PledgeSector st).2, log ++ [.PledgeSector])) ∧
      (Miner.mk m.sealing.recording).ForceSectorState ctx id state (st, log) =
        ((m.sealing.ForceSectorState st ctx id state).1,
          ((m.sealing.ForceSectorState st ctx id state).2,
            log ++ [.ForceSectorState ctx id state]))) :=
  ⟨⟨rfl, rfl, rfl, rfl, rfl, rfl⟩, ⟨rfl, rfl, rfl, rfl, rfl, rfl⟩⟩

end FacadeProofs

section Registration

variable {W Address Cid : Type} [DecidableEq Address]

/-- A `CreateStorageMiner` call that returns code 0 without fault went through
every step: the parameters encoded, the Exec send returned bytes that parse to an
address `M`, the state `pre` at the head was read, `pre` with `M` inserted was put
and committed over the head that was read. -/
theorem run_CreateStorageMiner_success (lib : Lib Address Cid)
    (vmctx : VMContext W Address Cid) (params : CreateStorageMinerParams Address) (w : W)
    (hcode : (run vmctx (StorageMarketActor.CreateStorageMiner lib params) w).ret.1.ReturnCode = 0)
    (herr : (run vmctx (StorageMarketActor.CreateStorageMiner lib params) w).ret.2 = none) :
    ∃ encoded M pre nroot,
      lib.CreateExecParams lib.StorageMinerCodeCid
        ⟨params.Owner, params.Worker, params.SectorSize, params.PeerID⟩ = .ok encoded ∧
      lib.NewFromBytes (StorageMarketActor.execSend lib vmctx w encoded).1.ret = .ok M ∧
      vmctx.Get (StorageMarketActor.execSend lib vmctx w encoded).2
        (vmctx.GetHead (StorageMarketActor.execSend lib vmctx w encoded).2) = .ok pre ∧
      (vmctx.Put (StorageMarketActor.execSend lib vmctx w encoded).2
        ⟨insert M pre.Miners, pre.TotalStorage⟩).1 = .ok nroot ∧
      (vmctx.Commit
        (vmctx.Put (StorageMarketActor.execSend lib vmctx w encoded).2
          ⟨insert M pre.Miners, pre.TotalStorage⟩).2
        (vmctx.GetHead (StorageMarketActor.execSend lib vmctx w encoded).2) nroot).1 = none ∧
      (run vmctx (StorageMarketActor.CreateStorageMiner lib params) w).ret =
        (⟨lib.AddressBytes M, 0⟩, none) ∧
      (run vmctx (StorageMarketActor.CreateStorageMiner lib params) w).world =
        (vmctx.Commit
          (vmctx.Put (StorageMarketActor.execSend lib vmctx w encoded).2
            ⟨insert M pre.Miners, pre.TotalStorage⟩).2
          (vmctx.GetHead (StorageMarketActor.execSend lib vmctx w encoded).2) nroot).2 := by
  revert hcode herr
  simp only [StorageMarketActor.CreateStorageMiner, StorageMarketActor.execSend]
  repeat' (first | split | simp only [run])
  all_goals simp [InvokeRet.zero]
  rename_i encoded hc _ _ _ _ M hM _ self hg _ nroot hp _ hcm
  exact ⟨encoded, hc, M, hM, self, hg, nroot, hp, hcm, rfl, rfl⟩

/-- C16: over a lawful store, a `CreateStorageMiner` call that returns code 0
without fault leaves at the head a state whose `Miners` is the `Miners` of the
state it read with exactly the new address `M` added, and whose `TotalStorage`
is unchanged. The state it read is the one at the head when the Exec send
returned; it is the state at the head before the call when the send left this
actor's store alone. -/
theorem C16_CreateStorageMiner_adds_only_the_new_miner (lib : Lib Address Cid)
    (vmctx : VMContext W Address Cid) (hlaw : LawfulStore vmctx)
    (params : CreateStorageMinerParams Address) (w : W)
    (hcode : (run vmctx (StorageMarketActor.CreateStorageMiner lib params) w).ret.1.ReturnCode = 0)
    (herr : (run vmctx (StorageMarketActor.CreateStorageMiner lib params) w).ret.2 = none) :
    ∃ encoded M pre post,
      lib.CreateExecParams lib.StorageMinerCodeCid
        ⟨params.Owner, params.Worker, params.SectorSize, params.PeerID⟩ = .ok encoded ∧
      lib.NewFromBytes (StorageMarketActor.execSend lib vmctx w encoded).1.ret = .ok M ∧
      vmctx.Get (StorageMarketActor.execSend lib vmctx w encoded).2
        (vmctx.GetHead (StorageMarketActor.execSend lib vmctx w encoded).2) = .ok pre ∧
      vmctx.Get (run vmctx (StorageMarketActor.CreateStorageMiner lib params) w).world
        (vmctx.GetHead (run vmctx (StorageMarketActor.CreateStorageMiner lib params) w).world)
        = .ok post ∧
      post.Miners = insert M pre.Miners ∧
      (∀ a, a ∈ pre.Miners → a ∈ post.Miners) ∧
      (∀ a, a ∈ post.Miners → a = M ∨ a ∈ pre.Miners) ∧
      post.TotalStorage = pre.TotalStorage ∧
      (vmctx.GetHead (StorageMarketActor.execSend lib vmctx w encoded).2 = vmctx.GetHead w →
        (∀ c, vmctx.Get (StorageMarketActor.execSend lib vmctx w encoded).2 c = vmctx.Get w c) →
        vmctx.Get w (vmctx.GetHead w) = .ok pre) := by
  obtain ⟨encoded, M, pre, nroot, hc, hM, hpre, hp, hcm, -, hw⟩ :=
    run_CreateStorageMiner_success lib vmctx params w hcode herr
  refine ⟨encoded, M, pre, ⟨insert M pre.Miners, pre.TotalStorage⟩, hc, hM, hpre, ?_, rfl,
    ?_, ?_, rfl, ?_⟩
  · rw [hw, hlaw.commit_head _ _ _ hcm, hlaw.commit_get _ _ _ _ hcm]
    exact hlaw.get_put _ _ _ hp
  · intro a ha
    exact Finset.mem_insert_of_mem ha
  · intro a ha
    exact Finset.mem_insert.mp ha
  · intro hh hg
    rw [← hh, ← hg]
    exact hpre

/-- C16 at genesis: the state read is the genesis state and the state at the new
head has `Miners = {42}` and total 0. -/
theorem C16_CreateStorageMiner_adds_only_the_new_miner_witness :
    (run (ctxFrom 1 0) (StorageMarketActor.CreateStorageMiner natLib ⟨1, 2, 1024, "peer"⟩)
        (MemStore.single genesis)).ret = (⟨[42], 0⟩, none) ∧
    (ctxFrom 1 0).Get
      (run (ctxFrom 1 0) (StorageMarketActor.CreateStorageMiner natLib ⟨1, 2, 1024, "peer"⟩)
        (MemStore.single genesis)).world
      ((ctxFrom 1 0).GetHead
        (run (ctxFrom 1 0) (StorageMarketActor.CreateStorageMiner natLib ⟨1, 2, 1024, "peer"⟩)
          (MemStore.single genesis)).world) = .ok ⟨{42}, 0⟩ ∧
    ∃ encoded M pre post,
      natLib.CreateExecParams natLib.StorageMinerCodeCid ⟨1, 2, 1024, "peer"⟩ = .ok encoded ∧
      natLib.NewFromBytes
        (StorageMarketActor.execSend natLib (ctxFrom 1 0) (MemStore.single genesis) encoded).1.ret
        = .ok M ∧
      (ctxFrom 1 0).Get
        (StorageMarketActor.execSend natLib (ctxFrom 1 0) (MemStore.single genesis) encoded).2
        ((ctxFrom 1 0).GetHead
          (StorageMarketActor.execSend natLib (ctxFrom 1 0) (MemStore.single genesis) encoded).2)
        = .ok pre ∧
      (ctxFrom 1 0).Get
        (run (ctxFrom 1 0) (StorageMarketActor.CreateStorageMiner natLib ⟨1, 2, 1024, "peer"⟩)
          (MemStore.single genesis)).world
        ((ctxFrom 1 0).GetHead
          (run (ctxFrom 1 0) (StorageMarketActor.CreateStorageMiner natLib ⟨1, 2, 1024, "peer"⟩)
            (MemStore.single genesis)).world) = .ok post ∧
      post.Miners = insert M pre.Miners ∧ post.TotalStorage = pre.TotalStorage := by
  refine ⟨by decide, by rfl, ?_⟩
  obtain ⟨encoded, M, pre, post, h1, h2, h3, h4, h5, -, -, h6, -⟩ :=
    C16_CreateStorageMiner_adds_only_the_new_miner natLib (ctxFrom 1 0)
      (MemStore.vmctx_lawful _ _ _) ⟨1, 2, 1024, "peer"⟩ (MemStore.single genesis)
      (by decide) (by decide)
  exact ⟨encoded, M, pre, post, h1, h2, h3, h4, h5, h6⟩

/-- C18: over a lawful store, when a `CreateStorageMiner` call returns code 0
without fault and the address `M` parsed from the Exec reply is already in `Miners`
of the state `pre` it read, the state at the head after the call is `pre` itself,
with the same number of members, and the call returns the bytes of `M`. -/
theorem C18_CreateStorageMiner_idempotent_on_member (lib : Lib Address Cid)
    (vmctx : VMContext W Address Cid) (hlaw : LawfulStore vmctx)
    (params : CreateStorageMinerParams Address) (w : W)
    (encoded : Bytes) (M : Address) (pre : StorageMarketState Address)
    (hc : lib.CreateExecParams lib.StorageMinerCodeCid
      ⟨params.Owner, params.Worker, params.SectorSize, params.PeerID⟩ = .ok encoded)
    (hM : lib.NewFromBytes (StorageMarketActor.execSend lib vmctx w encoded).1.ret = .ok M)
    (hpre : vmctx.Get (StorageMarketActor.execSend lib vmctx w encoded).2
      (vmctx.GetHead (StorageMarketActor.execSend lib vmctx w encoded).2) = .ok pre)
    (hmem : M ∈ pre.Miners)
    (hcode : (run vmctx (StorageMarketActor.CreateStorageMiner lib params) w).ret.1.ReturnCode = 0)
    (herr : (run vmctx (StorageMarketActor.CreateStorageMiner lib params) w).ret.2 = none) :
    (run vmctx (StorageMarketActor.CreateStorageMiner lib params) w).ret =
      (⟨lib.AddressBytes M, 0⟩, none) ∧
    ∃ post,
      vmctx.Get (run vmctx (StorageMarketActor.CreateStorageMiner lib params) w).world
        (vmctx.GetHead (run vmctx (StorageMarketActor.CreateStorageMiner lib params) w).world)
        = .ok post ∧
      post = pre ∧ post.Miners.card = pre.Miners.card := by
  obtain ⟨encoded2, M2, pre2, nroot, hc2, hM2, hpre2, hp, hcm, hret, hw⟩ :=
    run_CreateStorageMiner_success lib vmctx params w hcode herr
  have he : encoded2 = encoded := by
    rw [hc] at hc2
    exact (Except.ok.inj hc2).symm
  subst he
  have hMe : M2 = M := by
    rw [hM] at hM2
    exact (Except.ok.inj hM2).symm
  subst hMe
  have hpe : pre2 = pre := by
    rw [hpre] at hpre2
    exact (Except.ok.inj hpre2).symm
  subst hpe
  have hins : insert M2 pre2.Miners = pre2.Miners := Finset.insert_eq_of_mem hmem
  rw [hins] at hp hcm hw
  refine ⟨hret, pre2, ?_, rfl, rfl⟩
  rw [hw, hlaw.commit_head _ _ _ hcm, hlaw.commit_get _ _ _ _ hcm]
  exact hlaw.get_put _ _ _ hp

/-- C18 at a concrete state: `42` is already registered, Exec answers `42` again,
and the state at the head after the call is the state before it. -/
theorem C18_CreateStorageMiner_idempotent_on_member_witness :
    (42 : Nat) ∈ (⟨{42}, 3⟩ : StorageMarketState Nat).Miners ∧
    (run (ctxFrom 1 0) (StorageMarketActor.CreateStorageMiner natLib ⟨1, 2, 1024, "peer"⟩)
      (MemStore.single ⟨{42}, 3⟩)).ret = (⟨[42], 0⟩, none) ∧
    ∃ post,
      (ctxFrom 1 0).Get
        (run (ctxFrom 1 0) (StorageMarketActor.CreateStorageMiner natLib ⟨1, 2, 1024, "peer"⟩)
          (MemStore.single ⟨{42}, 3⟩)).world
        ((ctxFrom 1 0).GetHead
          (run (ctxFrom 1 0) (StorageMarketActor.CreateStorageMiner natLib ⟨1, 2, 1024, "peer"⟩)
            (MemStore.single ⟨{42}, 3⟩)).world) = .ok post ∧
      post = ⟨{42}, 3⟩ ∧ post.Miners.card = (⟨{42}, 3⟩ : StorageMarketState Nat).Miners.card :=
  ⟨by decide,
    C18_CreateStorageMiner_idempotent_on_member natLib (ctxFrom 1 0)
      (MemStore.vmctx_lawful _ _ _) ⟨1, 2, 1024, "peer"⟩ (MemStore.single ⟨{42}, 3⟩)
      [100, 1, 2] 42 ⟨{42}, 3⟩ (by rfl) (by rfl) (by rfl) (by decide) (by decide) (by decide)⟩

end Registration

section Invariant

variable {W Address Cid : Type} [DecidableEq Address]

/-- What `minted` is for a `CreateStorageMiner` call that reaches its Exec send. -/
theorem minted_CreateStorageMiner (lib : Lib Address Cid) (vmctx : VMContext W Address Cid)
    (params : CreateStorageMinerParams Address) (w : W) (encoded : Bytes)
    (hs : SupportedSectorSize params.SectorSize = true)
    (hc : lib.CreateExecParams lib.StorageMinerCodeCid
      ⟨params.Owner, params.Worker, params.SectorSize, params.PeerID⟩ = .ok encoded) :
    StorageMarketActor.minted lib vmctx (.CreateStorageMiner params) w =
      if (StorageMarketActor.execSend lib vmctx w encoded).1.err = none ∧
          (StorageMarketActor.execSend lib vmctx w encoded).1.exit = 0 then
        match lib.NewFromBytes (StorageMarketActor.execSend lib vmctx w encoded).1.ret with
        | .ok a => {a}
        | .error _ => ∅
      else ∅ := by
  simp only [StorageMarketActor.minted, StorageMarketActor.call,
    StorageMarketActor.CreateStorageMiner, hs, hc, run, StorageMarketActor.execSend]
  simp

/-- One call keeps the invariant: if the state at the head is readable and its
miners are among `m`, then after the call the state at the head is readable and
its miners are among `m` and the addresses the call minted. -/
theorem call_preserves_minted_bound (lib : Lib Address Cid) (vmctx : VMContext W Address Cid)
    (hlaw : LawfulStore vmctx) (hhead : HeadFrame vmctx) (hobj : ObjectFrame vmctx)
    (c : MethodCall Address) (w : W) (m : Finset Address)
    (hinv : ∃ s, vmctx.Get w (vmctx.GetHead w) = .ok s ∧ s.Miners ⊆ m) :
    ∃ s, vmctx.Get (run vmctx (StorageMarketActor.call lib c) w).world
        (vmctx.GetHead (run vmctx (StorageMarketActor.call lib c) w).world) = .ok s ∧
      s.Miners ⊆ m ∪ StorageMarketActor.minted lib vmctx c w := by
  obtain ⟨s, hs, hsub⟩ := hinv
  have hsub2 : s.Miners ⊆ m ∪ StorageMarketActor.minted lib vmctx c w :=
    hsub.trans Finset.subset_union_left
  have hsend : ∀ dest method value params,
      vmctx.Get (vmctx.Send w dest method value params).2
        (vmctx.GetHead (vmctx.Send w dest method value params).2) = .ok s := by
    intro dest method value params
    rw [hhead.send_head, hobj.send_get]
    exact hs
  cases c with
  | CreateStorageMiner params =>
    by_cases hsup : SupportedSectorSize params.SectorSize = true
    · cases hc : lib.CreateExecParams lib.StorageMinerCodeCid
        ⟨params.Owner, params.Worker, params.SectorSize, params.PeerID⟩ with
      | error e =>
        refine ⟨s, ?_, hsub2⟩
        simp [StorageMarketActor.call, StorageMarketActor.CreateStorageMiner, hsup, hc, run, hs]
      | ok encoded =>
        have hmint := minted_CreateStorageMiner lib vmctx params w encoded hsup hc
        simp only [StorageMarketActor.execSend] at hmint
        have key : ∀ (M : Address) (self : StorageMarketState Address),
            (vmctx.Send w lib.InitActorAddress 1 vmctx.Message.Value encoded).1.err = none →
            ¬ (vmctx.Send w lib.InitActorAddress 1 vmctx.Message.Value encoded).1.exit ≠ 0 →
            lib.NewFromBytes
              (vmctx.Send w lib.InitActorAddress 1 vmctx.Message.Value encoded).1.ret = .ok M →
            vmctx.Get (vmctx.Send w lib.InitActorAddress 1 vmctx.Message.Value encoded).2
              (vmctx.GetHead
                (vmctx.Send w lib.InitActorAddress 1 vmctx.Message.Value encoded).2) = .ok self →
            self = s ∧ insert M self.Miners ⊆
              m ∪ StorageMarketActor.minted lib vmctx (.CreateStorageMiner params) w := by
          intro M self he hx hM hg
          have hself : self = s := by
            rw [hsend] at hg
            exact (Except.ok.inj hg).symm
          refine ⟨hself, ?_⟩
          rw [hmint, hself]
          simp only [he, not_not.mp hx, hM, and_self, if_true]
          intro a ha
          rcases Finset.mem_insert.mp ha with h | h
          · simp [h]
          · exact Finset.mem_union_left _ (hsub h)
        simp only [StorageMarketActor.call, StorageMarketActor.CreateStorageMiner, hsup, hc, run]
        repeat' (first | split | simp only [run])
        all_goals try exact ⟨s, hsend _ _ _ _, hsub2⟩
        · rename_i _ he hx _ M hM _ self hg _ _ _
          obtain ⟨hself, hkey⟩ := key M self he hx hM hg
          rw [hhead.put_head]
          rcases hobj.put_get (vmctx.Send w lib.InitActorAddress 1 vmctx.Message.Value encoded).2
            ⟨insert M self.Miners, self.TotalStorage⟩
            (vmctx.GetHead (vmctx.Send w lib.InitActorAddress 1 vmctx.Message.Value encoded).2)
            with h | h
          · exact ⟨s, by rw [h]; exact hsend _ _ _ _, hsub2⟩
          · exact ⟨_, h, hkey⟩
        · rename_i _ he hx _ M hM _ self hg _ nroot _ _ _ hcm
          obtain ⟨hself, hkey⟩ := key M self he hx hM hg
          have hne : (vmctx.Commit
              (vmctx.Put (vmctx.Send w lib.InitActorAddress 1 vmctx.Message.Value encoded).2
                ⟨insert M self.Miners, self.TotalStorage⟩).2
              (vmctx.GetHead (vmctx.Send w lib.InitActorAddress 1 vmctx.Message.Value encoded).2)
              nroot).1 ≠ none := by
            rw [hcm]
            simp
          rw [hhead.commit_fail_head _ _ _ hne, hobj.commit_fail_get _ _ _ _ hne,
            hhead.put_head]
          rcases hobj.put_get (vmctx.Send w lib.InitActorAddress 1 vmctx.Message.Value encoded).2
            ⟨insert M self.Miners, self.TotalStorage⟩
            (vmctx.GetHead (vmctx.Send w lib.InitActorAddress 1 vmctx.Message.Value encoded).2)
            with h | h
          · exact ⟨s, by rw [h]; exact hsend _ _ _ _, hsub2⟩
          · exact ⟨_, h, hkey⟩
        · rename_i _ he hx _ M hM _ self hg _ nroot hp _ hcm
          obtain ⟨hself, hkey⟩ := key M self he hx hM hg
          rw [hlaw.commit_head _ _ _ hcm, hlaw.commit_get _ _ _ _ hcm]
          exact ⟨_, hlaw.get_put _ _ _ hp, hkey⟩
    · refine ⟨s, ?_, hsub2⟩
      simp [StorageMarketActor.call, StorageMarketActor.CreateStorageMiner, hsup, run, hs]
  | UpdateStorage params =>
    refine ⟨s, ?_, hsub2⟩
    simp only [StorageMarketActor.call, StorageMarketActor.UpdateStorage, run]
    repeat' (first | split | simp only [run])
    all_goals exact hs
  | GetTotalStorage =>
    refine ⟨s, ?_, hsub2⟩
    simp only [StorageMarketActor.call, StorageMarketActor.GetTotalStorage, run]
    repeat' (first | split | simp only [run])
    all_goals exact hs
  | PowerLookup params =>
    refine ⟨s, ?_, hsub2⟩
    simp only [StorageMarketActor.call, StorageMarketActor.PowerLookup, run]
    repeat' (first | split | simp only [run])
    all_goals first | exact hs | exact hsend _ _ _ _
  | IsMiner param =>
    refine ⟨s, ?_, hsub2⟩
    simp only [StorageMarketActor.call, StorageMarketActor.IsMiner, run]
    repeat' (first | split | simp only [run])
    all_goals exact hs

/-- A sequence of calls keeps the invariant, from any world that satisfies it. -/
theorem exec_preserves_minted_bound (lib : Lib Address Cid) (vmctx : VMContext W Address Cid)
    (hlaw : LawfulStore vmctx) (hhead : HeadFrame vmctx) (hobj : ObjectFrame vmctx)
    (rollback : Bool) (calls : List (Message Address × MethodCall Address)) :
    ∀ (w : W) (m : Finset Address),
      (∃ s, vmctx.Get w (vmctx.GetHead w) = .ok s ∧ s.Miners ⊆ m) →
      ∃ s, vmctx.Get (StorageMarketActor.exec lib vmctx rollback calls w).1
          (vmctx.GetHead (StorageMarketActor.exec lib vmctx rollback calls w).1) = .ok s ∧
        s.Miners ⊆ m ∪ (StorageMarketActor.exec lib vmctx rollback calls w).2 := by
  induction calls with
  | nil =>
    intro w m hinv
    obtain ⟨s, hs, hsub⟩ := hinv
    exact ⟨s, hs, hsub.trans Finset.subset_union_left⟩
  | cons step rest ih =>
    intro w m hinv
    obtain ⟨msg, c⟩ := step
    have hstep := call_preserves_minted_bound lib (vmctx.withMessage msg)
      ⟨hlaw.get_put, hlaw.commit_head, hlaw.commit_get⟩
      ⟨hhead.send_head, hhead.put_head, hhead.commit_fail_head⟩
      ⟨hobj.send_get, hobj.put_get, hobj.commit_fail_get⟩ c w m hinv
    have hnext : ∃ s,
        vmctx.Get
          (if (rollback &&
              (run (vmctx.withMessage msg) (StorageMarketActor.call lib c) w).ret.2.isSome) = true
            then w else (run (vmctx.withMessage msg) (StorageMarketActor.call lib c) w).world)
          (vmctx.GetHead
            (if (rollback &&
              (run (vmctx.withMessage msg) (StorageMarketActor.call lib c) w).ret.2.isSome) = true
            then w else (run (vmctx.withMessage msg) (StorageMarketActor.call lib c) w).world))
          = .ok s ∧
        s.Miners ⊆ m ∪ StorageMarketActor.minted lib (vmctx.withMessage msg) c w := by
      split
      · obtain ⟨s, hs, hsub⟩ := hinv
        exact ⟨s, hs, hsub.trans Finset.subset_union_left⟩
      · exact hstep
    obtain ⟨s, hs, hsub⟩ := ih _ _ hnext
    refine ⟨s, hs, ?_⟩
    simp only [StorageMarketActor.exec]
    rw [← Finset.union_assoc]
    exact hsub

/-- C17: from a world whose head holds the genesis state, after any finite
sequence of calls to the five methods, whether or not faulted calls are rolled
back, the state at the head is readable and every address in its `Miners` is among
the addresses minted during the sequence: parsed from the return bytes of the
Exec send (to the Initialization Actor, method 1) of a `CreateStorageMiner` call,
a send that returned exit code 0 without error. The store is lawful, its head
moves only by a successful `Commit` and its objects change only by `Put`. -/
theorem C17_miners_were_minted_by_exec (lib : Lib Address Cid)
    (vmctx : VMContext W Address Cid)
    (hlaw : LawfulStore vmctx) (hhead : HeadFrame vmctx) (hobj : ObjectFrame vmctx)
    (rollback : Bool) (w0 : W)
    (hgen : vmctx.Get w0 (vmctx.GetHead w0) = .ok ⟨∅, 0⟩)
    (calls : List (Message Address × MethodCall Address)) :
    ∃ s, vmctx.Get (StorageMarketActor.exec lib vmctx rollback calls w0).1
        (vmctx.GetHead (StorageMarketActor.exec lib vmctx rollback calls w0).1) = .ok s ∧
      ∀ a ∈ s.Miners, a ∈ (StorageMarketActor.exec lib vmctx rollback calls w0).2 := by
  obtain ⟨s, hs, hsub⟩ := exec_preserves_minted_bound lib vmctx hlaw hhead hobj rollback calls
    w0 ∅ ⟨_, hgen, by simp⟩
  refine ⟨s, hs, ?_⟩
  intro a ha
  simpa using hsub ha

/-- The in-memory store changes its objects only by `Put`, at the object put. -/
theorem MemStore.vmctx_objectFrame {A C : Type} [DecidableEq C]
    (digest : StorageMarketState A → C) (msg : Message A)
    (answer : A → Nat → BigInt → Bytes → SendRet) :
    ObjectFrame (MemStore.vmctx digest msg answer) where
  send_get := by intros; rfl
  put_get := by
    intro w s c
    simp only [MemStore.vmctx]
    by_cases hd : digest s = c
    · right
      simp [hd]
    · left
      simp [hd]
  commit_fail_get := by
    intro w old new c h
    simp only [MemStore.vmctx] at h ⊢
    by_cases hh : w.head = old
    · simp [hh] at h
    · simp [hh]

/-- C17 at a concrete sequence from genesis: create a miner (Exec answers `42`),
let the stranger `9` and the miner `42` call `UpdateStorage`, look `42` up; the
state at the head then has `Miners = {42}` and `42` was minted. -/
theorem C17_miners_were_minted_by_exec_witness :
    (ctxFrom 1 0).Get
      (StorageMarketActor.exec natLib (ctxFrom 1 0) false
        [(⟨1, 0⟩, .CreateStorageMiner ⟨1, 2, 1024, "peer"⟩), (⟨9, 0⟩, .UpdateStorage ⟨5⟩),
          (⟨42, 0⟩, .UpdateStorage ⟨5⟩), (⟨1, 0⟩, .PowerLookup ⟨42⟩)]
        (MemStore.single genesis)).1
      ((ctxFrom 1 0).GetHead
        (StorageMarketActor.exec natLib (ctxFrom 1 0) false
          [(⟨1, 0⟩, .CreateStorageMiner ⟨1, 2, 1024, "peer"⟩), (⟨9, 0⟩, .UpdateStorage ⟨5⟩),
            (⟨42, 0⟩, .UpdateStorage ⟨5⟩), (⟨1, 0⟩, .PowerLookup ⟨42⟩)]
          (MemStore.single genesis)).1) = .ok ⟨{42}, 0⟩ ∧
    ∃ s,
      (ctxFrom 1 0).Get
        (StorageMarketActor.exec natLib (ctxFrom 1 0) false
          [(⟨1, 0⟩, .CreateStorageMiner ⟨1, 2, 1024, "peer"⟩), (⟨9, 0⟩, .UpdateStorage ⟨5⟩),
            (⟨42, 0⟩, .UpdateStorage ⟨5⟩), (⟨1, 0⟩, .PowerLookup ⟨42⟩)]
          (MemStore.single genesis)).1
        ((ctxFrom 1 0).GetHead
          (StorageMarketActor.exec natLib (ctxFrom 1 0) false
            [(⟨1, 0⟩, .CreateStorageMiner ⟨1, 2, 1024, "peer"⟩), (⟨9, 0⟩, .UpdateStorage ⟨5⟩),
              (⟨42, 0⟩, .UpdateStorage ⟨5⟩), (⟨1, 0⟩, .PowerLookup ⟨42⟩)]
            (MemStore.single genesis)).1) = .ok s ∧
      ∀ a ∈ s.Miners, a ∈
        (StorageMarketActor.exec natLib (ctxFrom 1 0) false
          [(⟨1, 0⟩, .CreateStorageMiner ⟨1, 2, 1024, "peer"⟩), (⟨9, 0⟩, .UpdateStorage ⟨5⟩),
            (⟨42, 0⟩, .UpdateStorage ⟨5⟩), (⟨1, 0⟩, .PowerLookup ⟨42⟩)]
          (MemStore.single genesis)).2 :=
  ⟨by rfl,
    C17_miners_were_minted_by_exec natLib (ctxFrom 1 0) (MemStore.vmctx_lawful _ _ _)
      (MemStore.vmctx_headFrame _ _ _) (MemStore.vmctx_objectFrame _ _ _) false
      (MemStore.single genesis) (by rfl) _⟩

end Invariant

end Lotus
